import Mathlib

/-!
# quipu: knot-chain codec and port-allow bitmap

A shallow embedding of `knotchain/knotchain.go`, `knotchain/knot/*.go`,
`router/config.go`, the dispatcher's decision and the read-ahead connection of
`router/router.go`, and the chain expansion of `subscription/subscription.go`.

Conventions of the embedding:

* a Go `byte` is a `Fin 256`, a `uint16` is a `Fin 65536`; arithmetic is done on
  the underlying naturals and reduced with an explicit `% 256`;
* a Go `string` and a Go `[]byte` are both `List Byte` (a Go string is an
  immutable octet sequence, `len` counts octets);
* a Go function that can fault at run time (index out of range, nil
  dereference, explicit `panic`) returns `Exec`;
* library behaviour that the repository calls but does not define
  (`compress/flate`, `net.IP.String`, the DNS resolver) is collected in `Env`;
  `encoding/base32` is modelled concretely.
-/

namespace Quipu

/-! ## Machine types -/

abbrev Byte := Fin 256
abbrev Port := Fin 65536
abbrev Bytes := List Byte
abbrev Str := List Byte

/-- Conversion `byte(n)` of a Go integer: keeps the low eight bits. -/
def byteOf (n : Nat) : Byte := ⟨n % 256, Nat.mod_lt _ (by decide)⟩

/-- Conversion `uint16(n)`: keeps the low sixteen bits. -/
def portOf (n : Nat) : Port := ⟨n % 65536, Nat.mod_lt _ (by decide)⟩

/-- Octets of an ASCII string literal. -/
def str (s : String) : Str := s.toList.map (fun c => byteOf c.toNat)

/-- Outcome of running a Go function that may fault. -/
inductive Exec (α : Type) where
  | panic : Exec α
  | value : α → Exec α
  deriving DecidableEq, Repr

/-- Error values produced by the embedded functions. -/
inductive GoErr where
  /-- `TieChain error: chain is too long` -/
  | chainTooLong
  /-- `TieChainToHostname error: result hostname is too long` -/
  | tieHostnameTooLong (len : Nat)
  /-- `UntieHostname error: new hostname is too long` -/
  | untieHostnameTooLong (len : Nat)
  /-- `Untie error: not supported Version` -/
  | unsupportedVersion (v : Nat)
  /-- `Untie error: failed to decompress` -/
  | decompress
  /-- the sentinel `ErrNoKnotToUntie` -/
  | noKnotToUntie
  /-- `IP parse error, incorrect length` -/
  | ipParse
  /-- `Domain parse error, insufficient length` -/
  | domainParse
  /-- `Refer parse error, insufficient length` -/
  | referParse
  /-- `base32.CorruptInputError` -/
  | base32Corrupt
  /-- an error of the DNS resolver -/
  | resolve
  /-- `strconv.ParseUint`: syntax error -/
  | parseSyntax
  /-- `strconv.ParseUint`: value out of range -/
  | parseRange
  /-- `invalid port range: ...` -/
  | invalidPortRange (entry : Str)
  deriving DecidableEq, Repr

/-! ## `encoding/base32`, lower-case alphabet, no padding -/

/-- The alphabet `abcdefghijklmnopqrstuvwxyz234567` of
`Base32LowerCaseEncoding`: the character of a five-bit value. -/
def b32Char (v : Nat) : Byte :=
  if v < 26 then byteOf (97 + v) else byteOf (24 + v)

/-- The decode map of the alphabet: the five-bit value of a character, or
`none` for an octet outside the alphabet. -/
def b32Val (c : Byte) : Option Nat :=
  if 97 ≤ c.val ∧ c.val ≤ 122 then some (c.val - 97)
  else if 50 ≤ c.val ∧ c.val ≤ 55 then some (c.val - 24)
  else none

/-- Five-bit groups of a byte string, one 5-octet quantum at a time; a final
partial quantum of 1, 2, 3, 4 octets yields 2, 4, 5, 7 groups (no padding). -/
def b32Groups : Bytes → List Nat
  | [] => []
  | [a] => [a.val / 8, a.val % 8 * 4]
  | [a, b] => [a.val / 8, a.val % 8 * 4 + b.val / 64, b.val / 2 % 32, b.val % 2 * 16]
  | [a, b, c] =>
    [a.val / 8, a.val % 8 * 4 + b.val / 64, b.val / 2 % 32, b.val % 2 * 16 + c.val / 16,
     c.val % 16 * 2]
  | [a, b, c, d] =>
    [a.val / 8, a.val % 8 * 4 + b.val / 64, b.val / 2 % 32, b.val % 2 * 16 + c.val / 16,
     c.val % 16 * 2 + d.val / 128, d.val / 4 % 32, d.val % 4 * 8]
  | a :: b :: c :: d :: e :: rest =>
    [a.val / 8, a.val % 8 * 4 + b.val / 64, b.val / 2 % 32, b.val % 2 * 16 + c.val / 16,
     c.val % 16 * 2 + d.val / 128, d.val / 4 % 32, d.val % 4 * 8 + e.val / 32, e.val % 32]
      ++ b32Groups rest

/-- `Base32LowerCaseEncoding.EncodeToString`. -/
def b32Encode (b : Bytes) : Str := (b32Groups b).map b32Char

/-- Octets of a sequence of five-bit groups, one 8-group quantum at a time. A
final partial quantum of 2, 4, 5, 7 groups yields 1, 2, 3, 4 octets; one of 1, 3
or 6 groups yields nothing (the decoder's `switch dlen` has no such case). -/
def b32Ungroup : List Nat → Bytes
  | p :: q :: r :: s :: t :: u :: v :: w :: rest =>
    byteOf (p * 8 + q / 4) :: byteOf (q * 64 + r * 2 + s / 16) :: byteOf (s * 16 + t / 2)
      :: byteOf (t * 128 + u * 4 + v / 8) :: byteOf (v * 32 + w) :: b32Ungroup rest
  | [p, q, r, s, t, u, v] =>
    [byteOf (p * 8 + q / 4), byteOf (q * 64 + r * 2 + s / 16), byteOf (s * 16 + t / 2),
     byteOf (t * 128 + u * 4 + v / 8)]
  | [p, q, r, s, t] =>
    [byteOf (p * 8 + q / 4), byteOf (q * 64 + r * 2 + s / 16), byteOf (s * 16 + t / 2)]
  | [p, q, r, s] => [byteOf (p * 8 + q / 4), byteOf (q * 64 + r * 2 + s / 16)]
  | [p, q] => [byteOf (p * 8 + q / 4)]
  | _ => []

/-- Values of a string of alphabet characters; `none` at the first octet that
is not in the alphabet. -/
def b32Vals : Str → Option (List Nat)
  | [] => some []
  | c :: cs =>
    match b32Val c with
    | none => none
    | some v =>
      match b32Vals cs with
      | none => none
      | some vs => some (v :: vs)

/-- `Base32LowerCaseEncoding.DecodeString`: carriage returns and line feeds are
stripped, then the characters are decoded; an octet outside the alphabet is a
`CorruptInputError`. (The library's handling of padding characters does not
apply to an encoding without padding and is left out.) -/
def b32Decode (s : Str) : Except GoErr Bytes :=
  match b32Vals (s.filter (fun c => c.val ≠ 13 ∧ c.val ≠ 10)) with
  | none => .error .base32Corrupt
  | some vs => .ok (b32Ungroup vs)


instance instDecidableEqExcept {ε α : Type} [DecidableEq ε] [DecidableEq α] :
    DecidableEq (Except ε α)
  | .ok a, .ok b => if h : a = b then isTrue (by rw [h]) else isFalse (by intro c; cases c; exact h rfl)
  | .error a, .error b =>
    if h : a = b then isTrue (by rw [h]) else isFalse (by intro c; cases c; exact h rfl)
  | .ok _, .error _ => isFalse (by intro c; cases c)
  | .error _, .ok _ => isFalse (by intro c; cases c)

/-! ## Library behaviour taken as a parameter -/

/-- An entry of `[]net.IPAddr`. -/
structure IPAddr where
  IP : Bytes
  Zone : Str
  deriving DecidableEq, Repr

/-- The library functions the codec calls.

* `deflate b`: the octets a `flate.NewWriter(_, flate.BestCompression)` has
  produced once `b` has been written to it and it has been closed;
* `inflate b`: `io.ReadAll(flate.NewReader(_))` on `b`, `none` on an error;
* `ipString`: `net.IP.String`;
* `lookupIPAddr`: `net.DefaultResolver.LookupIPAddr`, `none` on an error. -/
structure Env where
  deflate : Bytes → Bytes
  inflate : Bytes → Option Bytes
  ipString : Bytes → Str
  lookupIPAddr : Str → Option (List IPAddr)

/-! ## Knots (`knotchain/knot`) -/

def IPv4 : Nat := 0x01
def IPv6 : Nat := 0x04
def DomainName : Nat := 0x03
def ReferDomain : Nat := 0xa1

def IPv4len : Nat := 4
def IPv6len : Nat := 16

/-- The type `knot.IP`. -/
structure IP where
  Addr : Bytes
  IPort : Port
  deriving DecidableEq, Repr

/-- The type `knot.Domain`; `ips = none` is the nil slice. -/
structure Domain where
  Addr : Str
  IPort : Port
  ips : Option (List IPAddr) := none
  dynPort : Port := 0
  deriving DecidableEq, Repr

/-- The implementations of the interface `Knot`: `*knot.IP`, `*knot.Domain`
and `*knot.Refer` (a struct embedding a `Domain`). -/
inductive Knot where
  | ip (k : IP)
  | domain (d : Domain)
  | refer (d : Domain)
  deriving DecidableEq, Repr

/-- `binary.BigEndian.PutUint16`. -/
def putUint16 (p : Port) : Bytes := [byteOf (p.val >>> 8), byteOf p.val]

/-- `binary.BigEndian.Uint16` of two octets. -/
def getUint16 (hi lo : Byte) : Port := portOf (lo.val ||| hi.val <<< 8)

def IP.Type (ip : IP) : Nat :=
  if ip.Addr.length = IPv4len then IPv4
  else if ip.Addr.length = IPv6len then IPv6
  else 0

def IP.Length (ip : IP) : Nat := ip.Addr.length + 2

/-- `(*IP).Encode`: the address octets, then the port; faults when the address
has neither 4 nor 16 octets. -/
def IP.Encode (ip : IP) : Exec Bytes :=
  if ip.Type = IPv4 then .value (ip.Addr.take IPv4len ++ putUint16 ip.IPort)
  else if ip.Type = IPv6 then .value (ip.Addr.take IPv6len ++ putUint16 ip.IPort)
  else .panic

def Domain.Port (d : Domain) : Port :=
  if d.dynPort ≠ 0 then d.dynPort else d.IPort

def Domain.Length (d : Domain) : Nat := d.Addr.length + 3

/-- `(*Domain).Encode`: length octet, host octets, port; faults when the host
is longer than 255 octets. -/
def Domain.Encode (d : Domain) : Exec Bytes :=
  if d.Addr.length > 255 then .panic
  else .value (byteOf d.Addr.length :: d.Addr ++ putUint16 d.IPort)

/-- `(*Refer).Encode`: the two port octets only. -/
def Refer.Encode (d : Domain) : Exec Bytes := .value (putUint16 d.IPort)

def Knot.Type : Knot → Nat
  | .ip k => k.Type
  | .domain _ => DomainName
  | .refer _ => ReferDomain

def Knot.Host (env : Env) : Knot → Str
  | .ip k => env.ipString k.Addr
  | .domain d => d.Addr
  | .refer d => d.Addr

def Knot.Port : Knot → Port
  | .ip k => k.IPort
  | .domain d => d.Port
  | .refer d => d.Port

def Knot.Encode : Knot → Exec Bytes
  | .ip k => k.Encode
  | .domain d => d.Encode
  | .refer d => Refer.Encode d

def Knot.Length : Knot → Nat
  | .ip k => k.Length
  | .domain d => d.Length
  | .refer _ => 2

/-- `knot.DecodeIPv4`. -/
def DecodeIPv4 (b : Bytes) : Except GoErr IP :=
  if b.length < IPv4len + 2 then .error .ipParse
  else .ok { Addr := b.take IPv4len,
             IPort := getUint16 (b.getD IPv4len 0) (b.getD (IPv4len + 1) 0) }

/-- `knot.DecodeIPv6`. -/
def DecodeIPv6 (b : Bytes) : Except GoErr IP :=
  if b.length < IPv6len + 2 then .error .ipParse
  else .ok { Addr := b.take IPv6len,
             IPort := getUint16 (b.getD IPv6len 0) (b.getD (IPv6len + 1) 0) }

/-- `knot.lookupIP4P`: the IPv4 address (in the 16-octet form that `net.IPv4`
returns) and the port carried by an IP4P address; port 0 otherwise. -/
def lookupIP4P (ip : Bytes) : Bytes × Port :=
  if ip.length ≠ IPv6len then (ip, 0)
  else if ip.getD 0 0 = 0x20 ∧ ip.getD 1 0 = 0x01 ∧ ip.getD 2 0 = 0x00 ∧ ip.getD 3 0 = 0x00 then
    if ((List.range 6).map (fun i => ip.getD (i + 4) 0)).any (fun x => x ≠ 0) then (ip, 0)
    else
      ([0, 0, 0, 0, 0, 0, 0, 0, 0, 0, 0xff, 0xff,
        ip.getD 12 0, ip.getD 13 0, ip.getD 14 0, ip.getD 15 0],
       portOf ((ip.getD 10 0).val <<< 8 + (ip.getD 11 0).val))
  else (ip, 0)

/-- The loop of `DecodeDomain` over the resolved addresses: the first IP4P
address found sets `ips` and `dynPort`. -/
def findIP4P (d : Domain) : List IPAddr → Domain
  | [] => d
  | ip :: rest =>
    let r := lookupIP4P ip.IP
    if r.2 ≠ 0 then { d with ips := some [{ IP := r.1, Zone := [] }], dynPort := r.2 }
    else findIP4P d rest

/-- `knot.DecodeDomain`: faults on an empty slice (`b[0]`); a declared port of
zero triggers a DNS lookup. -/
def DecodeDomain (env : Env) (b : Bytes) : Exec (Except GoErr Domain) :=
  match b with
  | [] => .panic
  | b0 :: _ =>
    let Hostlen := b0.val
    if b.length < Hostlen + 3 then .value (.error .domainParse)
    else
      let d : Domain :=
        { Addr := (b.drop 1).take Hostlen,
          IPort := getUint16 (b.getD (Hostlen + 1) 0) (b.getD (Hostlen + 2) 0) }
      if d.IPort = 0 then
        match env.lookupIPAddr d.Addr with
        | none => .value (.error .resolve)
        | some ips =>
          let d1 := findIP4P d ips
          .value (.ok (if d1.dynPort = 0 then { d1 with ips := some ips } else d1))
      else .value (.ok d)

/-- `knot.DecodeRefer`. -/
def DecodeRefer (b : Bytes) (stemHostname : Str) : Except GoErr Domain :=
  if b.length < 2 then .error .referParse
  else .ok { Addr := stemHostname, IPort := getUint16 (b.getD 0 0) (b.getD 1 0) }

/-! ## Chain codec (`knotchain/knotchain.go`) -/

def Version1 : Nat := 0x01
def NotCompressed : Nat := 0
def Deflate : Nat := 1

/-- The type `KnotChain`. -/
structure KnotChain where
  Version : Byte
  Knots : List Knot
  deriving DecidableEq, Repr

/-- The loop of `TieChain` over the knots: each iteration appends the tag and
the encoded body to the buffer; a faulting `Encode` faults the call. -/
def writeKnots (buf : Bytes) : List Knot → Exec Bytes
  | [] => .value buf
  | k :: ks =>
    match k.Encode with
    | .panic => .panic
    | .value e => writeKnots ((buf ++ [byteOf k.Type]) ++ e) ks

/-- `compress`: DEFLATE the buffer; with `try` set, keep the input when the
compressed form is not shorter. (Writes to a `bytes.Buffer` do not fail.) -/
def compress (env : Env) (b : Bytes) (try_ : Bool) : Bytes × Bool :=
  let cbuf := env.deflate b
  if try_ ∧ cbuf.length ≥ b.length then (b, false) else (cbuf, true)

/-- `TieChain`. -/
def TieChain (env : Env) (chain : KnotChain) : Exec (Except GoErr Bytes) :=
  let version := chain.Version
  if chain.Knots.length > 0b00001111 then .value (.error .chainTooLong)
  else
    match writeKnots [byteOf chain.Knots.length] chain.Knots with
    | .panic => .panic
    | .value buf =>
      let r := compress env buf true
      let compressed := if r.2 then Deflate else NotCompressed
      .value (.ok (byteOf (compressed <<< 6 + version.val) :: r.1))

/-- What `Untie` returns: the knot (or nil), the new chain octets, the error
(or nil). -/
abbrev UntieResult := Option Knot × Bytes × Option GoErr

/-- The `switch addrtype` of `Untie`: the decoded knot (nil when no case
matches) and the error. The slices `b[:net.IPv4len+2]` and `b[:net.IPv6len+2]`
of a shorter `b` either fault at once or, when the capacity allows them, make
`b[nextKnot.Length():]` fault afterwards; both are the fault modelled here. -/
def decodeKnot (env : Env) (addrtype : Nat) (b : Bytes) (stemHostname : Str) :
    Exec (Option Knot × Option GoErr) :=
  if addrtype = IPv4 then
    if b.length < IPv4len + 2 then .panic
    else
      match DecodeIPv4 (b.take (IPv4len + 2)) with
      | .ok k => .value (some (.ip k), none)
      | .error e => .value (none, some e)
  else if addrtype = IPv6 then
    if b.length < IPv6len + 2 then .panic
    else
      match DecodeIPv6 (b.take (IPv6len + 2)) with
      | .ok k => .value (some (.ip k), none)
      | .error e => .value (none, some e)
  else if addrtype = DomainName then
    match DecodeDomain env b with
    | .panic => .panic
    | .value (.ok d) => .value (some (.domain d), none)
    | .value (.error e) => .value (none, some e)
  else if addrtype = ReferDomain then
    match DecodeRefer b stemHostname with
    | .ok d => .value (some (.refer d), none)
    | .error e => .value (none, some e)
  else .value (none, none)

/-- `Untie`: peel the first knot of an encoded chain. `written` is what has
been written to `w`; with DEFLATE the output buffer receives its compressed
form when the writer is closed. -/
def Untie (env : Env) (b : Bytes) (stemHostname : Str) : Exec UntieResult :=
  match b with
  | [] => .panic
  | b0 :: payload =>
    let compressed := b0.val >>> 6
    let version := b0.val &&& 0b00111111
    if version ≠ Version1 then .value (none, [], some (.unsupportedVersion version))
    else
      let close (written : Bytes) : Bytes :=
        b0 :: (if compressed = Deflate then env.deflate written else written)
      match (if compressed = Deflate then env.inflate payload else some payload) with
      | none => .value (none, [], some .decompress)
      | some [] => .panic
      | some (c :: rest) =>
        let currHop := c.val >>> 4
        let totalHops := c.val &&& 0b00001111
        if currHop = totalHops then
          .value (none, close (byteOf totalHops :: rest), some .noKnotToUntie)
        else
          match rest with
          | [] => .panic
          | addrtype :: b =>
            match decodeKnot env addrtype.val b stemHostname with
            | .panic => .panic
            | .value (_, some err) => .value (none, [], some err)
            | .value (none, none) => .panic
            | .value (some nextKnot, none) =>
              if nextKnot.Length > b.length then .panic
              else
                match nextKnot.Encode with
                | .panic => .panic
                | .value e =>
                  .value (some nextKnot,
                    close ((b.drop nextKnot.Length ++ [byteOf nextKnot.Type]) ++ e), none)

/-- The test of `tryRefer`: a Domain knot whose host is the stem. -/
def refersToStem (env : Env) (stemHostname : Str) (k : Knot) : Bool :=
  k.Type = DomainName && k.Host env = stemHostname

/-- `tryRefer`: when some Domain knot names the stem, every such knot is
replaced by a Refer knot that embeds a copy of it. -/
def tryRefer (env : Env) (chain : KnotChain) (stemHostname : Str) : KnotChain :=
  if chain.Knots.any (refersToStem env stemHostname) then
    { Version := chain.Version,
      Knots := chain.Knots.map (fun k =>
        if refersToStem env stemHostname k then
          match k with
          | .domain d => .refer d
          | other => other -- not reached: only a `*Domain` has tag `DomainName`
        else k) }
  else chain

/-- `TieChainToHostname`. -/
def TieChainToHostname (env : Env) (chain : KnotChain) (stemHostname : Str) :
    Exec (Except GoErr Str) :=
  match TieChain env (tryRefer env chain stemHostname) with
  | .panic => .panic
  | .value (.error err) => .value (.error err)
  | .value (.ok b) =>
    let host := str "q--" ++ b32Encode b ++ str "." ++ stemHostname
    if host.length > 253 then .value (.error (.tieHostnameTooLong host.length))
    else .value (.ok host)

/-- `strings.Cut` with a one-octet separator. -/
def Cut (s : Str) (sep : Byte) : Str × Str × Bool :=
  match s with
  | [] => ([], [], false)
  | c :: cs =>
    if c = sep then ([], cs, true)
    else
      let r := Cut cs sep
      if r.2.2 then (c :: r.1, r.2.1, true) else (s, [], false)

/-- What `UntieHostname` returns: the knot (or nil), the new hostname, the
error (or nil). -/
abbrev UntieHostnameResult := Option Knot × Str × Option GoErr

/-- `UntieHostname`. -/
def UntieHostname (env : Env) (hostname : Str) : Exec UntieHostnameResult :=
  let c := Cut hostname 46
  let first := c.1
  let stem := c.2.1
  if ¬ (str "q--").isPrefixOf first then .value (none, hostname, some .noKnotToUntie)
  else
    match b32Decode (first.drop 3) with
    | .error err => .value (none, [], some err)
    | .ok b =>
      match Untie env b stem with
      | .panic => .panic
      | .value (nextKnot, b, err) =>
        let newHost := str "q--" ++ b32Encode b ++ str "." ++ stem
        if newHost.length > 253 then
          .value (none, [], some (.untieHostnameTooLong newHost.length))
        else .value (nextKnot, newHost, err)

/-! ## Port-allow bitmap (`router/config.go`) -/

/-- `strings.Split` with a one-octet separator. -/
def Split (s : Str) (sep : Byte) : List Str :=
  match s with
  | [] => [[]]
  | c :: cs =>
    if c = sep then [] :: Split cs sep
    else
      match Split cs sep with
      | [] => [[c]]
      | h :: t => (c :: h) :: t

/-- The UTF-8 forms of the code points for which `unicode.IsSpace` holds:
tab, line feed, vertical tab, form feed, carriage return, space, U+0085,
U+00A0, U+1680, U+2000..U+200A, U+2028, U+2029, U+202F, U+205F, U+3000. -/
def spaceForms : List Str :=
  [[9], [10], [11], [12], [13], [32], [0xc2, 0x85], [0xc2, 0xa0], [0xe1, 0x9a, 0x80],
   [0xe2, 0x80, 0x80], [0xe2, 0x80, 0x81], [0xe2, 0x80, 0x82], [0xe2, 0x80, 0x83],
   [0xe2, 0x80, 0x84], [0xe2, 0x80, 0x85], [0xe2, 0x80, 0x86], [0xe2, 0x80, 0x87],
   [0xe2, 0x80, 0x88], [0xe2, 0x80, 0x89], [0xe2, 0x80, 0x8a], [0xe2, 0x80, 0xa8],
   [0xe2, 0x80, 0xa9], [0xe2, 0x80, 0xaf], [0xe2, 0x81, 0x9f], [0xe3, 0x80, 0x80]]

/-- Remove leading white space, one code point at a time. -/
def trimLeft (forms : List Str) : Nat → Str → Str
  | 0, s => s
  | n + 1, s =>
    match forms.find? (fun f => f.isPrefixOf s) with
    | some f => trimLeft forms n (s.drop f.length)
    | none => s

/-- `strings.TrimSpace`. -/
def TrimSpace (s : Str) : Str :=
  let l := trimLeft spaceForms s.length s
  (trimLeft (spaceForms.map List.reverse) l.length l.reverse).reverse

/-- The digit loop of `strconv.ParseUint(s, 10, 16)`. -/
def parseDigits (n : Nat) : Str → Except GoErr Nat
  | [] => .ok n
  | c :: cs =>
    if 48 ≤ c.val ∧ c.val ≤ 57 then
      let n1 := n * 10 + (c.val - 48)
      if n1 > 65535 then .error .parseRange else parseDigits n1 cs
    else .error .parseSyntax

/-- `strconv.ParseUint(s, 10, 16)`. -/
def ParseUint (s : Str) : Except GoErr Nat :=
  if s = [] then .error .parseSyntax else parseDigits 0 s

/-- Go's `<` on strings: octet-wise lexicographic order. -/
def strLt : Str → Str → Bool
  | [], [] => false
  | [], _ :: _ => true
  | _ :: _, [] => false
  | a :: x, b :: y => if a.val < b.val then true else if b.val < a.val then false else strLt x y

/-- The array `[65536 / 8]byte`, as the function from index to octet. -/
abbrev Portmap := Nat → Byte

/-- The type `routerConf`. -/
structure routerConf where
  ListenPlain : Str := []
  ListenTLS : Str := []
  FinalHTTP : Str := []
  FinalSocks : Str := []
  FinalTLS : Str := []
  EnableRedir : Bool := false
  AllowPorts : Str := []
  AllowPortmap : Portmap := fun _ => 0

/-- The statement `m[pos] |= bits`. -/
def orAt (m : Portmap) (pos : Nat) (bits : Byte) : Portmap :=
  fun i => if i = pos then byteOf ((m i).val ||| bits.val) else m i

/-- One iteration of the loop of `BuildPortmap`, on the entry `portr`; the
error is nil when the loop continues. (The two `fmt.Println` calls of the range
branch only write to standard output.) -/
def buildEntry (m : Portmap) (portr : Str) : Portmap × Option GoErr :=
  let c := Cut portr 45
  if ¬ c.2.2 then
    match ParseUint portr with
    | .error err => (m, some err)
    | .ok port => (orAt m (port / 8) (byteOf (1 <<< (port % 8))), none)
  else
    let floor := TrimSpace c.1
    let ceil := TrimSpace c.2.1
    match ParseUint floor with
    | .error err => (m, some err)
    | .ok flooru =>
      match ParseUint ceil with
      | .error err => (m, some err)
      | .ok ceilu =>
        if strLt ceil floor then (m, some (.invalidPortRange portr))
        else
          let floorpos := flooru / 8
          let floorrem := flooru % 8
          let ceilpos := ceilu / 8
          let ceilrem := ceilu % 8
          let floorbits := byteOf (0xff <<< floorrem)
          let ceilbits := byteOf (0xff >>> (7 - ceilrem))
          if floorpos = ceilpos then
            (orAt m ceilpos (byteOf (floorbits.val &&& ceilbits.val)), none)
          else
            let m1 := orAt (orAt m floorpos floorbits) ceilpos ceilbits
            ((List.range' (floorpos + 1) (ceilpos - (floorpos + 1))).foldl
              (fun a i => orAt a i 0xff) m1, none)

/-- The loop of `BuildPortmap` over the entries; it returns at the first
error, leaving the bitmap as the earlier entries made it. -/
def buildEntries (m : Portmap) : List Str → Portmap × Option GoErr
  | [] => (m, none)
  | portr :: rest =>
    match buildEntry m portr with
    | (m1, none) => buildEntries m1 rest
    | (m1, some err) => (m1, some err)

/-- `(*routerConf).BuildPortmap`: the configuration after the call and the
error. -/
def BuildPortmap (c : routerConf) : routerConf × Option GoErr :=
  let r := buildEntries (fun _ => 0) (Split c.AllowPorts 44)
  ({ c with AllowPortmap := r.1 }, r.2)

/-- `(*routerConf).IsPortAllowed`. -/
def IsPortAllowed (c : routerConf) (port : Port) : Bool :=
  let pos := port.val / 8
  let rem := port.val % 8
  (c.AllowPortmap pos).val &&& (byteOf (1 <<< rem)).val ≠ 0

/-! ## Definitions used to state the properties -/

/-- A knot that `Encode` accepts: an IP address of 4 or 16 octets, a Domain
host of at most 255 octets, any Refer. -/
def Knot.encodable : Knot → Prop
  | .ip k => k.Addr.length = 4 ∨ k.Addr.length = 16
  | .domain d => d.Addr.length ≤ 255
  | .refer _ => True

instance (k : Knot) : Decidable k.encodable := by
  cases k <;> unfold Knot.encodable <;> infer_instance

/-- The variant body of the data-model table: address octets and big-endian
port for an IP knot; length octet, host octets and port for a Domain; the port
alone for a Refer. -/
def Knot.wire : Knot → Bytes
  | .ip k => k.Addr ++ [byteOf (k.IPort.val / 256), byteOf (k.IPort.val % 256)]
  | .domain d =>
    byteOf d.Addr.length :: d.Addr ++ [byteOf (d.IPort.val / 256), byteOf (d.IPort.val % 256)]
  | .refer d => [byteOf (d.IPort.val / 256), byteOf (d.IPort.val % 256)]

/-- The chain body of the wire format: the counter octet with current hop 0
and the number of knots as total hops, then tag and variant body of each
knot. -/
def wireBody (chain : KnotChain) : Bytes :=
  byteOf chain.Knots.length :: chain.Knots.flatMap (fun k => byteOf k.Type :: k.wire)

/-- The knot that `Untie` rebuilds from the encoded form of `k`: an IP knot as
it is; a Domain knot with its host and declared port and no resolved state; a
Refer knot with the stem as host. -/
def Knot.decoded (stem : Str) : Knot → Knot
  | .ip k => .ip k
  | .domain d => .domain { Addr := d.Addr, IPort := d.IPort }
  | .refer d => .refer { Addr := stem, IPort := d.IPort }

/-- A knot whose decoding involves no DNS lookup: `DecodeDomain` resolves the
host only when the declared port is zero. -/
def Knot.direct : Knot → Prop
  | .domain d => d.IPort ≠ 0
  | _ => True

instance (k : Knot) : Decidable k.direct := by
  cases k <;> unfold Knot.direct <;> infer_instance

/-- The first knots of the first-knot round trip: an IPv4 or IPv6 knot, or a
Domain knot with a non-zero declared port and a host other than the stem. (A
Domain with a declared port has no dynamic port: `DecodeDomain` sets `dynPort`
only when the declared port is zero.) -/
def Knot.plain (stem : Str) : Knot → Prop
  | .ip k => k.Addr.length = 4 ∨ k.Addr.length = 16
  | .domain d => d.IPort ≠ 0 ∧ d.dynPort = 0 ∧ d.Addr ≠ stem
  | .refer _ => False

instance (stem : Str) (k : Knot) : Decidable (k.plain stem) := by
  cases k <;> unfold Knot.plain <;> infer_instance

/-- A stem of four labels, three of 60 octets and one of `last` octets. -/
def labelStem (last : Nat) : Str :=
  List.replicate 60 97 ++ str "." ++ List.replicate 60 97 ++ str "." ++ List.replicate 60 97
    ++ str "." ++ List.replicate last 97

/-- A codec with a one-word dictionary `w`, an instance of the DEFLATE
parameter: an input that starts with `w` is sent as a 0 octet and the rest, any
other input as a 1 octet and the input. With the empty word nothing is ever
shortened. -/
def dictEnv (w : Bytes) : Env where
  deflate := fun b => if w.isPrefixOf b then 0 :: b.drop w.length else 1 :: b
  inflate := fun b =>
    match b with
    | [] => none
    | t :: r => if t = 0 then some (w ++ r) else if t = 1 then some r else none
  ipString := fun a => (a.map (fun x => str (toString x.val))).intersperse (str ".") |>.flatten
  lookupIPAddr := fun _ => none

/-- The chain of scenario 1: one IPv4 knot `10.0.0.1:8443`. -/
def chainIPv4 : KnotChain :=
  { Version := 1, Knots := [.ip { Addr := [10, 0, 0, 1], IPort := 8443 }] }

/-- A chain of one Domain knot that names the stem `labelStem 59`. -/
def chainStem : KnotChain :=
  { Version := 1, Knots := [.domain { Addr := labelStem 59, IPort := 443 }] }

/-- The chain of scenario 2: `foo.test:443`, then `bar.test:443`. -/
def chainFooBar : KnotChain :=
  { Version := 1,
    Knots := [.domain { Addr := str "foo.test", IPort := 443 },
              .domain { Addr := str "bar.test", IPort := 443 }] }

/-! ## The dispatcher's decision (`router/router.go`) -/

/-- What `Handle` does with the connection once the sniffer has returned. -/
inductive Dispatch where
  /-- the sniffer failed: log and close -/
  | untieFailed (err : GoErr)
  /-- end of chain and no backend configured for the protocol: log and close -/
  | noFinalBackend (proto : Str)
  /-- end of chain: dial the terminal backend and relay -/
  | dialFinal (network address : Str)
  /-- a next knot, redirection disabled: log and close -/
  | redirDisabled (k : Knot)
  /-- a next knot whose port is not allowed: log and close -/
  | portNotAllowed (k : Knot)
  /-- a next knot: `nextKnot.DialContext(s.ctx, "tcp")` and relay -/
  | dialKnot (k : Knot)
  deriving DecidableEq, Repr

/-- Whether the dispatcher opens an outbound connection. -/
def Dispatch.dials : Dispatch → Bool
  | .dialFinal _ _ => true
  | .dialKnot _ => true
  | _ => false

/-- The branch `nextKnot == nil` of `Handle`: the terminal backend of the
protocol; a backend without a colon is a UNIX-domain socket path. -/
def finalBackend (cfg : routerConf) (proto : Str) : Dispatch :=
  let r : Str × Str :=
    if proto = str "tls" then (str "tcp", cfg.FinalTLS)
    else if proto = str "http" then (str "tcp", cfg.FinalHTTP)
    else if proto = str "socks4" ∨ proto = str "socks5" then (str "tcp", cfg.FinalSocks)
    else ([], [])
  if r.2.length = 0 then .noFinalBackend proto
  else if (58 : Byte) ∉ r.2 then
    .dialFinal (if r.1 = str "udp" then str "unixgram" else str "unixpacket") r.2
  else .dialFinal r.1 r.2

/-- `(*TCPServer).Handle` from the return of the sniffer on: `proto`,
`nextKnot` and `err` are what `untieTCPHost` or `untieClientHelloRecord`
returned (`proto` is `tls` on the TLS listener). -/
def Handle (cfg : routerConf) (proto : Str) (nextKnot : Option Knot) (err : Option GoErr) :
    Dispatch :=
  match err with
  | some .noKnotToUntie => finalBackend cfg proto
  | some e => .untieFailed e
  | none =>
    match nextKnot with
    | none => finalBackend cfg proto
    | some k =>
      if ¬ cfg.EnableRedir then .redirDisabled k
      else if ¬ IsPortAllowed cfg k.Port then .portNotAllowed k
      else .dialKnot k

/-- The server-name step of `untieClientHelloRecord`: the name the extension
holds when the record is encoded again, `none` when the sniffer returns the
error of `UntieHostname` instead. -/
def rewrittenServerName (env : Env) (name : Str) : Exec (Option Str) :=
  match UntieHostname env name with
  | .panic => .panic
  | .value (_, newName, err) =>
    if err ≠ none ∧ err ≠ some .noKnotToUntie then .value none else .value (some newName)

/-! ## Dialling a Domain knot (`knotchain/knot/hostname.go`) -/

/-- An established `net.Conn`, named by what it was dialled with. -/
structure Conn where
  network : Str
  address : Str
  deriving DecidableEq, Repr

/-- An error of `net.Dialer.DialContext`. -/
inductive DialErr where
  | failed (address : Str)
  deriving DecidableEq, Repr

/-- `strconv.FormatUint(n, 10)`. -/
def FormatUint (n : Nat) : Str := str (toString n)

/-- `net.JoinHostPort`: a host with a colon is put in brackets. -/
def JoinHostPort (host port : Str) : Str :=
  if (58 : Byte) ∈ host then str "[" ++ host ++ str "]:" ++ port else host ++ str ":" ++ port

/-- `(*net.IPAddr).String`. -/
def IPAddr.String (env : Env) (a : IPAddr) : Str :=
  let ip := if a.IP.length = 0 then [] else env.ipString a.IP
  if a.Zone ≠ [] then ip ++ str "%" ++ a.Zone else ip

/-- What `DialContext` returns, with the addresses it has dialled, in order. -/
structure DialResult where
  dialled : List Str
  conn : Option Conn
  err : Option DialErr
  deriving DecidableEq, Repr

/-- The loop of `(*Domain).DialContext` over the resolved addresses, `dial`
being `dialer.DialContext`: `inl` is the `return conn, nil` inside the loop
(a failed dial leaves `conn` nil), `inr` carries the addresses dialled and the
last `err` when the loop has run to its end. -/
def dialIPs (env : Env) (dial : Str → Str → Except DialErr Conn) (network portStr : Str)
    (dialled : List Str) (err : Option DialErr) :
    List IPAddr → DialResult ⊕ (List Str × Option DialErr)
  | [] => .inr (dialled, err)
  | ip :: rest =>
    let address := JoinHostPort (ip.String env) portStr
    match dial network address with
    | .error _ => .inl { dialled := dialled ++ [address], conn := none, err := none }
    | .ok _ => dialIPs env dial network portStr (dialled ++ [address]) none rest

/-- `(*Domain).DialContext`. -/
def Domain.DialContext (env : Env) (dial : Str → Str → Except DialErr Conn) (d : Domain)
    (network : Str) : DialResult :=
  let portStr := FormatUint d.Port.val
  let byName (dialled : List Str) : DialResult :=
    match dial network (JoinHostPort d.Addr portStr) with
    | .ok c => { dialled := dialled ++ [JoinHostPort d.Addr portStr], conn := some c, err := none }
    | .error e =>
      { dialled := dialled ++ [JoinHostPort d.Addr portStr], conn := none, err := some e }
  match d.ips with
  | none => byName []
  | some ips =>
    match dialIPs env dial network portStr [] none ips with
    | .inl r => r
    | .inr (dialled, some e) => { dialled := dialled, conn := none, err := some e }
    | .inr (dialled, none) => byName dialled

/-! ## More definitions used to state the properties -/

/-- The first DNS label of a hostname: the text before the first dot, or the
whole hostname when it has no dot. -/
def firstLabel (h : Str) : Str := h.takeWhile (fun c => c ≠ 46)

/-- Whether `pat` occurs in `s` as a contiguous run of octets. -/
def occursIn (pat s : Str) : Bool := s.tails.any (fun t => pat.isPrefixOf t)

/-- What the refer shorthand has the chain encoder write for a knot of the
input chain: tag `0xa1` and the two port octets for a Domain knot that names the
stem, tag and variant body for any other knot. -/
def referWire (stem : Str) (k : Knot) : Bytes :=
  match k with
  | .domain d =>
    if d.Addr = stem then
      [byteOf ReferDomain, byteOf (d.IPort.val / 256), byteOf (d.IPort.val % 256)]
    else byteOf DomainName :: k.wire
  | other => byteOf other.Type :: other.wire

/-- The chain without knots. -/
def chainEmpty : KnotChain := { Version := 1, Knots := [] }

/-- The chain `foo.test:443`, then `www.foo.test:443`. -/
def chainWww : KnotChain :=
  { Version := 1,
    Knots := [.domain { Addr := str "foo.test", IPort := 443 },
              .domain { Addr := str "www.foo.test", IPort := 443 }] }

/-- The knot `[::1]:9000` of scenarios 3 and 4. -/
def knotLoopback : Knot :=
  .ip { Addr := [0, 0, 0, 0, 0, 0, 0, 0, 0, 0, 0, 0, 0, 0, 0, 1], IPort := 9000 }

/-- A Domain knot as `DecodeDomain` leaves it for a declared port of zero when
the resolver has answered `192.0.2.1` and no IP4P address. -/
def domainResolved : Domain :=
  { Addr := str "foo.test", IPort := 0,
    ips := some [{ IP := [192, 0, 2, 1], Zone := [] }], dynPort := 0 }

/-- A dialler on which every dial fails. -/
def dialNone : Str → Str → Except DialErr Conn := fun _ address => .error (.failed address)

/-! ## The read-ahead connection (`router/router.go`) -/

/-- An error of `Read` on the underlying reader. -/
inductive ReadErr where
  | eof
  | failed
  deriving DecidableEq, Repr

/-- The type `wrappedConn` over a buffered reader in state `br`; the nil slice
and the empty slice of `prepend` are both `[]`. -/
structure wrappedConn (R : Type) where
  br : R
  prepend : Bytes

/-- `(*wrappedConn).Read` on a buffer of `n` octets, `read` being
`(*bufio.Reader).Read`: the octets put into the buffer, the error, and the
connection afterwards. `copy` moves `min n (len prepend)` octets. -/
def wrappedConn.Read {R : Type} (read : R → Nat → (Bytes × Option ReadErr) × R)
    (c : wrappedConn R) (n : Nat) : (Bytes × Option ReadErr) × wrappedConn R :=
  if c.prepend.length > 0 then
    let k := min n c.prepend.length
    if k = c.prepend.length then ((c.prepend.take k, none), { c with prepend := [] })
    else ((c.prepend.take k, none), { c with prepend := c.prepend.drop k })
  else
    let r := read c.br n
    (r.1, { c with br := r.2 })

/-- Successive calls of `Read` with buffers of the given sizes: what each call
returned, in call order, and the connection afterwards. -/
def wrappedConn.Reads {R : Type} (read : R → Nat → (Bytes × Option ReadErr) × R)
    (c : wrappedConn R) : List Nat → List (Bytes × Option ReadErr) × wrappedConn R
  | [] => ([], c)
  | n :: ns =>
    let r := c.Read read n
    let rs := wrappedConn.Reads read r.2 ns
    (r.1 :: rs.1, rs.2)

/-- Successive calls of `Read` on the underlying reader itself. -/
def brReads {R : Type} (read : R → Nat → (Bytes × Option ReadErr) × R) (br : R) :
    List Nat → List (Bytes × Option ReadErr) × R
  | [] => ([], br)
  | n :: ns =>
    let r := read br n
    let rs := brReads read r.2 ns
    (r.1 :: rs.1, rs.2)

/-- The calls that the read-ahead octets `p` serve, for buffers of the given
sizes: as long as octets remain, a call takes the next `min n remaining` of
them and returns no error. -/
def aheadReads (p : Bytes) : List Nat → List (Bytes × Option ReadErr)
  | [] => []
  | n :: ns => if p.length = 0 then [] else (p.take n, none) :: aheadReads (p.drop n) ns

/-! ## Chain expansion (`subscription/subscription.go`) -/

/-- The type `ClashProxy` (its inline map `Others` of further YAML keys, which
no function embedded here reads, is left out). -/
structure ClashProxy where
  Name : Str
  ProxyType : Str := []
  Server : Str := []
  Port : Int := 0
  SNI : Str := []
  Servername : Str := []
  deriving DecidableEq, Repr

/-- The errors of `expandChain`. -/
inductive ExpandErr where
  /-- `failed to expand chain: group [...] is not found` -/
  | groupNotFound (groupName : Str)
  /-- `failed to expand chain: group [...] has no element` -/
  | groupEmpty (groupName : Str)
  deriving DecidableEq, Repr

/-- `addGroupToChain`: one chain per proxy of the group; the proxy starts the
chain when the chain is empty, is skipped when it has the name of the last hop,
and is appended otherwise. -/
def addGroupToChain (chainedProxies : List ClashProxy) (group : List ClashProxy) :
    List (List ClashProxy) :=
  group.map (fun g =>
    match chainedProxies.getLast? with
    | none => [g]
    | some last => if g.Name = last.Name then chainedProxies else chainedProxies ++ [g])

/-- The loop of `expandChain` over the group names; `chainedProxies = none` is
the nil slice before the first group. -/
def expandLoop (groupProxies : Str → Option (List ClashProxy))
    (chainedProxies : Option (List (List ClashProxy))) :
    List Str → Except ExpandErr (List (List ClashProxy))
  | [] => .ok (chainedProxies.getD [])
  | groupName :: rest =>
    match groupProxies groupName with
    | none => .error (.groupNotFound groupName)
    | some group =>
      if group.length = 0 then .error (.groupEmpty groupName)
      else
        match chainedProxies with
        | none => expandLoop groupProxies (some (addGroupToChain [] group)) rest
        | some cps =>
          expandLoop groupProxies (some (cps.flatMap (fun p => addGroupToChain p group))) rest

/-- `expandChain`, the map of groups being its lookup function. -/
def expandChain (groupProxies : Str → Option (List ClashProxy)) (chain : List Str) :
    Except ExpandErr (List (List ClashProxy)) :=
  expandLoop groupProxies none chain

/-! ## Definitions used to state the properties of the last claims -/

/-- `net.IPv4(a, b, c, d)`: the address in its 16-octet form. -/
def netIPv4 (a b c d : Byte) : Bytes := [0, 0, 0, 0, 0, 0, 0, 0, 0, 0, 0xff, 0xff, a, b, c, d]

/-- The choices of one proxy per group, first group first, in lexicographic
order of the positions chosen. -/
def choices : List (List ClashProxy) → List (List ClashProxy)
  | [] => [[]]
  | g :: gs => g.flatMap (fun x => (choices gs).map (fun c => x :: c))

/-- A hop joins a chain unless it has the name of the chain's last hop. -/
def addHop (p : List ClashProxy) (x : ClashProxy) : List ClashProxy :=
  match p.getLast? with
  | none => [x]
  | some last => if x.Name = last.Name then p else p ++ [x]

/-- The chain of a choice: its hops in order, a hop being left out when it has
the name of the hop kept before it. -/
def hops (c : List ClashProxy) : List ClashProxy := c.foldl addHop []

/-- The groups `a = [a1, a2]` and `b = [a2, b1]` of the witnesses. -/
def groupsAB (name : Str) : Option (List ClashProxy) :=
  if name = str "a" then some [{ Name := str "a1" }, { Name := str "a2" }]
  else if name = str "b" then some [{ Name := str "a2" }, { Name := str "b1" }]
  else if name = str "none" then some []
  else none

/-- A reader over a list of octets that returns up to `n` octets per call and
end-of-file when nothing is left. -/
def listRead (s : Bytes) (n : Nat) : (Bytes × Option ReadErr) × Bytes :=
  if s.length = 0 then (([], some .eof), s) else ((s.take n, none), s.drop n)

/-! ## Theorems -/

set_option maxRecDepth 100000

/-! ### Encoding of the knots -/

theorem putUint16_eq (p : Port) :
    putUint16 p = [byteOf (p.val / 256), byteOf (p.val % 256)] := by
  have h1 : p.val >>> 8 = p.val / 256 := by rw [Nat.shiftRight_eq_div_pow]
  simp only [putUint16, h1, byteOf]
  congr 2
  simp only [Fin.mk.injEq]
  omega

theorem encode_of_encodable (k : Knot) (h : k.encodable) : k.Encode = .value k.wire := by
  cases k with
  | ip k =>
    simp only [Knot.encodable] at h
    simp only [Knot.Encode, IP.Encode, IP.Type, IPv4len, IPv6len, IPv4, IPv6, Knot.wire,
      putUint16_eq]
    rcases h with h | h <;> simp [h, List.take_of_length_le]
  | domain d =>
    simp only [Knot.encodable] at h
    simp only [Knot.Encode, Domain.Encode, Knot.wire, putUint16_eq]
    rw [if_neg (by omega)]
  | refer d => simp only [Knot.Encode, Refer.Encode, Knot.wire, putUint16_eq]

theorem writeKnots_wire (ks : List Knot) (h : ∀ k ∈ ks, k.encodable) (buf : Bytes) :
    writeKnots buf ks = .value (buf ++ ks.flatMap (fun k => byteOf k.Type :: k.wire)) := by
  induction ks generalizing buf with
  | nil => simp [writeKnots]
  | cons k ks ih =>
    have hk := encode_of_encodable k (h k (List.mem_cons_self _ _))
    simp only [writeKnots, hk]
    rw [ih (fun x hx => h x (List.mem_cons_of_mem _ hx))]
    simp

/-! ### `TieChain` -/

theorem tieChain_of_body (env : Env) (chain : KnotChain) (r : Bytes)
    (hn : chain.Knots.length ≤ 15)
    (hr : writeKnots [byteOf chain.Knots.length] chain.Knots = .value r) :
    TieChain env chain =
      .value (.ok (if (env.deflate r).length ≥ r.length then chain.Version :: r
                   else byteOf (64 + chain.Version.val) :: env.deflate r)) := by
  have hv : byteOf chain.Version.val = chain.Version := by
    apply Fin.ext
    simp only [byteOf]
    omega
  simp only [TieChain, hr, compress]
  rw [if_neg (by omega)]
  by_cases hc : (env.deflate r).length ≥ r.length
  · simp [hc, NotCompressed, hv]
  · simp [hc, Deflate]

/-- C5. For a chain whose knots are all encodable, `TieChain` returns the
error "chain is too long" exactly when the chain has more than 15 knots, and
with 15 knots or fewer it returns a byte string and no error. -/
theorem tieChain_error_iff_too_long (env : Env) (chain : KnotChain)
    (henc : ∀ k ∈ chain.Knots, k.encodable) :
    (TieChain env chain = .value (.error .chainTooLong) ↔ chain.Knots.length > 15) ∧
    ((∃ err, TieChain env chain = .value (.error err)) ↔ chain.Knots.length > 15) ∧
    (chain.Knots.length ≤ 15 → ∃ out, TieChain env chain = .value (.ok out)) := by
  have hok : chain.Knots.length ≤ 15 → ∃ out, TieChain env chain = .value (.ok out) := by
    intro hn
    exact ⟨_, tieChain_of_body env chain _ hn (writeKnots_wire chain.Knots henc _)⟩
  have hlong : chain.Knots.length > 15 → TieChain env chain = .value (.error .chainTooLong) := by
    intro hn
    simp only [TieChain]
    rw [if_pos (by omega)]
  refine ⟨⟨?_, hlong⟩, ⟨?_, fun hn => ⟨_, hlong hn⟩⟩, hok⟩
  · intro h
    by_contra hn
    obtain ⟨out, ho⟩ := hok (by omega)
    rw [ho] at h
    cases h
  · rintro ⟨err, h⟩
    by_contra hn
    obtain ⟨out, ho⟩ := hok (by omega)
    rw [ho] at h
    cases h

theorem tieChain_error_iff_too_long_witness :
    (TieChain (dictEnv []) chainFooBar = .value (.error .chainTooLong)
      ↔ chainFooBar.Knots.length > 15) ∧
    ((∃ err, TieChain (dictEnv []) chainFooBar = .value (.error err))
      ↔ chainFooBar.Knots.length > 15) ∧
    (chainFooBar.Knots.length ≤ 15 →
      ∃ out, TieChain (dictEnv []) chainFooBar = .value (.ok out)) :=
  tieChain_error_iff_too_long (dictEnv []) chainFooBar (by decide)

/-- C6. For a chain of at most 15 encodable knots, every knot encodes to its
variant body, the buffer `TieChain` fills before compression is the counter
octet `n` followed by tag and encoded body of each knot in order, that counter
octet has high nibble 0 and low nibble `n`, and when the compressed form is not
shorter the output of `TieChain` is the framing octet (compression bits 0,
the version) followed by exactly this buffer. -/
theorem tieChain_raw_body (env : Env) (chain : KnotChain)
    (hn : chain.Knots.length ≤ 15) (henc : ∀ k ∈ chain.Knots, k.encodable) :
    (∀ k ∈ chain.Knots, k.Encode = .value k.wire) ∧
    writeKnots [byteOf chain.Knots.length] chain.Knots = .value (wireBody chain) ∧
    (∃ c rest, wireBody chain = c :: rest ∧ c.val >>> 4 = 0 ∧
      c.val &&& 0b00001111 = chain.Knots.length) ∧
    ((env.deflate (wireBody chain)).length ≥ (wireBody chain).length →
      TieChain env chain =
        .value (.ok (byteOf (NotCompressed <<< 6 + chain.Version.val) :: wireBody chain))) := by
  have hb : writeKnots [byteOf chain.Knots.length] chain.Knots = .value (wireBody chain) := by
    rw [writeKnots_wire chain.Knots henc]
    rfl
  refine ⟨fun k hk => encode_of_encodable k (henc k hk), hb, ?_, ?_⟩
  · refine ⟨byteOf chain.Knots.length, _, rfl, ?_, ?_⟩
    · generalize chain.Knots.length = n at hn
      interval_cases n <;> decide
    · generalize chain.Knots.length = n at hn
      interval_cases n <;> decide
  · intro hc
    have hv : byteOf (NotCompressed <<< 6 + chain.Version.val) = chain.Version := by
      apply Fin.ext
      simp only [byteOf, NotCompressed, Nat.zero_shiftLeft]
      omega
    rw [tieChain_of_body env chain _ hn hb, if_pos hc, hv]

theorem tieChain_raw_body_witness :
    (∀ k ∈ chainFooBar.Knots, k.Encode = .value k.wire) ∧
    writeKnots [byteOf chainFooBar.Knots.length] chainFooBar.Knots
      = .value (wireBody chainFooBar) ∧
    (∃ c rest, wireBody chainFooBar = c :: rest ∧ c.val >>> 4 = 0 ∧
      c.val &&& 0b00001111 = chainFooBar.Knots.length) ∧
    (((dictEnv []).deflate (wireBody chainFooBar)).length ≥ (wireBody chainFooBar).length →
      TieChain (dictEnv []) chainFooBar =
        .value (.ok (byteOf (NotCompressed <<< 6 + chainFooBar.Version.val)
          :: wireBody chainFooBar))) :=
  tieChain_raw_body (dictEnv []) chainFooBar (by decide) (by decide)

/-- C7. For a chain with version 1 whose buffer before compression is `r`:
when the DEFLATE form of `r` is not shorter than `r`, `TieChain` returns
`0x01 :: r`; when it is shorter, `TieChain` returns `0x41` followed by the
DEFLATE form; in both cases the low six bits of the framing octet are the
version `0x01` and its top two bits are the compression field, 0 or 1. -/
theorem tieChain_framing (env : Env) (chain : KnotChain) (r : Bytes)
    (hv : chain.Version = 1) (hn : chain.Knots.length ≤ 15)
    (hr : writeKnots [byteOf chain.Knots.length] chain.Knots = .value r) :
    ((env.deflate r).length ≥ r.length → TieChain env chain = .value (.ok (0x01 :: r))) ∧
    ((env.deflate r).length < r.length →
      TieChain env chain = .value (.ok (0x41 :: env.deflate r))) ∧
    (∃ f rest, TieChain env chain = .value (.ok (f :: rest)) ∧
      f.val &&& 0b00111111 = Version1 ∧
      (f.val >>> 6 = NotCompressed ∧ rest = r ∨ f.val >>> 6 = Deflate ∧ rest = env.deflate r)) := by
  have h := tieChain_of_body env chain r hn hr
  rw [hv] at h
  have h41 : byteOf (64 + (1 : Byte).val) = 0x41 := by decide
  rw [h41] at h
  by_cases hc : (env.deflate r).length ≥ r.length
  · rw [if_pos hc] at h
    refine ⟨fun _ => h, fun hlt => absurd hc (by omega), 1, r, h, by decide, Or.inl ⟨by decide, rfl⟩⟩
  · rw [if_neg hc] at h
    refine ⟨fun hge => absurd hge hc, fun _ => h, 0x41, _, h, by decide, Or.inr ⟨by decide, rfl⟩⟩

theorem tieChain_framing_witness :
    (((dictEnv [2, 3]).deflate (wireBody chainFooBar)).length ≥ (wireBody chainFooBar).length →
      TieChain (dictEnv [2, 3]) chainFooBar = .value (.ok (0x01 :: wireBody chainFooBar))) ∧
    (((dictEnv [2, 3]).deflate (wireBody chainFooBar)).length < (wireBody chainFooBar).length →
      TieChain (dictEnv [2, 3]) chainFooBar
        = .value (.ok (0x41 :: (dictEnv [2, 3]).deflate (wireBody chainFooBar)))) ∧
    (∃ f rest, TieChain (dictEnv [2, 3]) chainFooBar = .value (.ok (f :: rest)) ∧
      f.val &&& 0b00111111 = Version1 ∧
      (f.val >>> 6 = NotCompressed ∧ rest = wireBody chainFooBar ∨
        f.val >>> 6 = Deflate ∧ rest = (dictEnv [2, 3]).deflate (wireBody chainFooBar))) :=
  tieChain_framing (dictEnv [2, 3]) chainFooBar (wireBody chainFooBar) (by decide) (by decide)
    (by decide)

/-! ### `tryRefer` and `TieChainToHostname` -/

theorem refersToStem_iff (env : Env) (stem : Str) (k : Knot) :
    refersToStem env stem k = true ↔ ∃ d, k = .domain d ∧ d.Addr = stem := by
  cases k with
  | ip k =>
    simp only [refersToStem, Knot.Type, IP.Type, IPv4len, IPv6len, IPv4, IPv6, DomainName]
    split_ifs <;> simp
  | domain d => simp [refersToStem, Knot.Type, Knot.Host]
  | refer d => simp [refersToStem, Knot.Type, ReferDomain, DomainName]

/-- C8. `TieChainToHostname` returns a hostname `h` exactly when `TieChain` on
the chain after `tryRefer` returns octets `b`, `h` is `q--`, the base32 form
of `b`, a dot and the stem, and `h` has at most 253 octets; it does not return
a hostname exactly when `TieChain` returns none or that string is longer than
253 octets. -/
theorem tieChainToHostname_spec (env : Env) (chain : KnotChain) (stem : Str) :
    (∀ h, TieChainToHostname env chain stem = .value (.ok h) ↔
      ∃ b, TieChain env (tryRefer env chain stem) = .value (.ok b) ∧
        h = str "q--" ++ b32Encode b ++ str "." ++ stem ∧ h.length ≤ 253) ∧
    ((¬ ∃ h, TieChainToHostname env chain stem = .value (.ok h)) ↔
      (¬ ∃ b, TieChain env (tryRefer env chain stem) = .value (.ok b)) ∨
      ∃ b, TieChain env (tryRefer env chain stem) = .value (.ok b) ∧
        (str "q--" ++ b32Encode b ++ str "." ++ stem).length > 253) := by
  have key : ∀ h, TieChainToHostname env chain stem = .value (.ok h) ↔
      ∃ b, TieChain env (tryRefer env chain stem) = .value (.ok b) ∧
        h = str "q--" ++ b32Encode b ++ str "." ++ stem ∧ h.length ≤ 253 := by
    intro h
    unfold TieChainToHostname
    cases hT : TieChain env (tryRefer env chain stem) with
    | panic => simp
    | value r =>
      cases r with
      | error e => simp
      | ok b =>
        simp only [Exec.value.injEq, Except.ok.injEq, exists_eq_left']
        by_cases hl : (str "q--" ++ b32Encode b ++ str "." ++ stem).length > 253
        · rw [if_pos hl]
          constructor
          · intro hh
            cases hh
          · rintro ⟨rfl, hle⟩
            omega
        · rw [if_neg hl]
          simp only [Exec.value.injEq, Except.ok.injEq]
          constructor
          · rintro rfl
            exact ⟨rfl, by omega⟩
          · rintro ⟨rfl, _⟩
            rfl
  refine ⟨key, ?_⟩
  constructor
  · intro hno
    by_cases hb : ∃ b, TieChain env (tryRefer env chain stem) = .value (.ok b)
    · right
      obtain ⟨b, hb⟩ := hb
      refine ⟨b, hb, ?_⟩
      by_contra hl
      exact hno ⟨_, (key _).2 ⟨b, hb, rfl, by omega⟩⟩
    · left
      exact hb
  · rintro (hno | ⟨b, hb, hl⟩) ⟨h, hh⟩
    · obtain ⟨b, hb, _⟩ := (key h).1 hh
      exact hno ⟨b, hb⟩
    · obtain ⟨b2, hb2, rfl, hle⟩ := (key h).1 hh
      rw [hb] at hb2
      cases hb2
      omega

/-- C9. The chain `tryRefer` returns has the version and the number of knots
of the input, and at every index a Domain knot whose host is the stem has
become the Refer knot (tag `0xa1`) embedding it, with the same declared port
and the same `Port()`, while every other knot is unchanged. -/
theorem tryRefer_spec (env : Env) (chain : KnotChain) (stem : Str) :
    (tryRefer env chain stem).Version = chain.Version ∧
    (tryRefer env chain stem).Knots.length = chain.Knots.length ∧
    ∀ (i : Nat) (k : Knot), chain.Knots[i]? = some k →
      ((∀ d : Domain, k = .domain d → d.Addr = stem →
          (tryRefer env chain stem).Knots[i]? = some (.refer d) ∧
          (Knot.refer d).Type = 0xa1 ∧ (Knot.refer d).Port = k.Port ∧
          ∀ e, (Knot.refer d).Encode = .value e → e = putUint16 d.IPort) ∧
       ((¬ ∃ d : Domain, k = .domain d ∧ d.Addr = stem) →
          (tryRefer env chain stem).Knots[i]? = some k)) := by
  have hmap : ∀ (i : Nat) (k : Knot), chain.Knots[i]? = some k →
      (tryRefer env chain stem).Knots[i]? =
        some (if refersToStem env stem k then
          (match k with
           | .domain d => .refer d
           | other => other) else k) := by
    intro i k hk
    unfold tryRefer
    by_cases hany : chain.Knots.any (refersToStem env stem) = true
    · rw [if_pos hany]
      simp [List.getElem?_map, hk]
    · rw [if_neg hany, hk]
      have hf : refersToStem env stem k = false := by
        by_contra hne
        apply hany
        rw [List.any_eq_true]
        exact ⟨k, List.getElem?_mem hk, by simpa using hne⟩
      simp [hf]
  refine ⟨?_, ?_, ?_⟩
  · unfold tryRefer
    split_ifs <;> rfl
  · unfold tryRefer
    split_ifs
    · simp
    · rfl
  · intro i k hk
    constructor
    · rintro d rfl hd
      refine ⟨?_, rfl, rfl, ?_⟩
      · rw [hmap i _ hk, if_pos ((refersToStem_iff env stem _).2 ⟨d, rfl, hd⟩)]
      · intro e he
        simp only [Knot.Encode, Refer.Encode, Exec.value.injEq] at he
        exact he.symm
    · intro hno
      rw [hmap i _ hk, if_neg]
      intro hr
      exact hno ((refersToStem_iff env stem k).1 hr)

theorem tryRefer_spec_witness :
    ((tryRefer (dictEnv []) chainFooBar (str "foo.test")).Knots.map Knot.Type = [0xa1, 0x03]) ∧
    (tryRefer (dictEnv []) chainFooBar (str "foo.test")).Knots.length
      = chainFooBar.Knots.length ∧
    (tryRefer (dictEnv []) chainFooBar (str "foo.test")).Knots[0]?
      = some (.refer { Addr := str "foo.test", IPort := 443 }) :=
  ⟨by decide, (tryRefer_spec (dictEnv []) chainFooBar (str "foo.test")).2.1,
    ((tryRefer_spec (dictEnv []) chainFooBar (str "foo.test")).2.2 0 _ rfl).1 _ rfl
      (by decide) |>.1⟩

/-! ### Base32 -/

theorem byteOf_val (a : Byte) : byteOf a.val = a := by
  apply Fin.ext
  simp only [byteOf]
  omega

theorem byteOf_eq_of (a : Byte) (n : Nat) (h : n % 256 = a.val) : byteOf n = a := by
  apply Fin.ext
  simp only [byteOf]
  exact h

theorem b32Ungroup_groups (b : Bytes) : b32Ungroup (b32Groups b) = b := by
  induction b using b32Groups.induct with
  | case1 => rfl
  | case2 a =>
    simp only [b32Groups, b32Ungroup]
    congr 1
    exact byteOf_eq_of a _ (by omega)
  | case3 a b =>
    simp only [b32Groups, b32Ungroup]
    rw [byteOf_eq_of a _ (by omega), byteOf_eq_of b _ (by omega)]
  | case4 a b c =>
    simp only [b32Groups, b32Ungroup]
    rw [byteOf_eq_of a _ (by omega), byteOf_eq_of b _ (by omega), byteOf_eq_of c _ (by omega)]
  | case5 a b c d =>
    simp only [b32Groups, b32Ungroup]
    rw [byteOf_eq_of a _ (by omega), byteOf_eq_of b _ (by omega), byteOf_eq_of c _ (by omega),
      byteOf_eq_of d _ (by omega)]
  | case6 a b c d e rest ih =>
    simp only [b32Groups, List.cons_append, List.nil_append, b32Ungroup, ih]
    rw [byteOf_eq_of a _ (by omega), byteOf_eq_of b _ (by omega), byteOf_eq_of c _ (by omega),
      byteOf_eq_of d _ (by omega), byteOf_eq_of e _ (by omega)]
    simpa using ih

theorem b32Groups_lt (b : Bytes) : ∀ v ∈ b32Groups b, v < 32 := by
  induction b using b32Groups.induct with
  | case1 => simp [b32Groups]
  | case2 a => simp only [b32Groups, List.mem_cons, List.mem_nil_iff, or_false]; omega
  | case3 a b => simp only [b32Groups, List.mem_cons, List.mem_nil_iff, or_false]; omega
  | case4 a b c => simp only [b32Groups, List.mem_cons, List.mem_nil_iff, or_false]; omega
  | case5 a b c d => simp only [b32Groups, List.mem_cons, List.mem_nil_iff, or_false]; omega
  | case6 a b c d e rest ih =>
    simp only [b32Groups, List.cons_append, List.nil_append, List.mem_cons]
    intro v hv
    rcases hv with h | h | h | h | h | h | h | h | h
    all_goals first | omega | exact ih v h

theorem b32Groups_length (b : Bytes) : (b32Groups b).length = (8 * b.length + 4) / 5 := by
  induction b using b32Groups.induct with
  | case1 => rfl
  | case2 a => simp [b32Groups]
  | case3 a b => simp [b32Groups]
  | case4 a b c => simp [b32Groups]
  | case5 a b c d => simp [b32Groups]
  | case6 a b c d e rest ih =>
    simp only [b32Groups, List.cons_append, List.nil_append, List.length_cons, ih]
    omega

theorem b32Val_char (v : Nat) (h : v < 32) : b32Val (b32Char v) = some v := by
  interval_cases v <;> decide

theorem b32Char_plain (v : Nat) (h : v < 32) :
    (b32Char v).val ≠ 13 ∧ (b32Char v).val ≠ 10 ∧ b32Char v ≠ 46 := by
  interval_cases v <;> decide

theorem b32Vals_map (vs : List Nat) (h : ∀ v ∈ vs, v < 32) :
    b32Vals (vs.map b32Char) = some vs := by
  induction vs with
  | nil => rfl
  | cons v vs ih =>
    simp only [List.map_cons, b32Vals, b32Val_char v (h v (List.mem_cons_self _ _)),
      ih (fun x hx => h x (List.mem_cons_of_mem _ hx))]

theorem b32Encode_filter (b : Bytes) :
    (b32Encode b).filter (fun c => c.val ≠ 13 ∧ c.val ≠ 10) = b32Encode b := by
  rw [List.filter_eq_self]
  intro c hc
  simp only [b32Encode, List.mem_map] at hc
  obtain ⟨v, hv, rfl⟩ := hc
  have := b32Char_plain v (b32Groups_lt b v hv)
  simp [this.1, this.2.1]

theorem b32Decode_encode (b : Bytes) : b32Decode (b32Encode b) = .ok b := by
  unfold b32Decode
  rw [b32Encode_filter]
  simp only [b32Encode, b32Vals_map _ (b32Groups_lt b), b32Ungroup_groups]

theorem b32Encode_no_dot (b : Bytes) : (46 : Byte) ∉ b32Encode b := by
  intro hc
  simp only [b32Encode, List.mem_map] at hc
  obtain ⟨v, hv, hv2⟩ := hc
  exact (b32Char_plain v (b32Groups_lt b v hv)).2.2 hv2

theorem b32Encode_length (b : Bytes) : (b32Encode b).length = (8 * b.length + 4) / 5 := by
  simp only [b32Encode, List.length_map, b32Groups_length]

/-! ### Hostname packaging -/

theorem Cut_append (a b : Str) (sep : Byte) (h : sep ∉ a) :
    Cut (a ++ sep :: b) sep = (a, b, true) := by
  induction a with
  | nil => simp [Cut]
  | cons c cs ih =>
    have hc : c ≠ sep := fun e => h (e ▸ List.mem_cons_self _ _)
    have ht := ih (fun hm => h (List.mem_cons_of_mem _ hm))
    simp only [List.cons_append, Cut, if_neg hc, List.append_eq, ht, if_true]

theorem Cut_tied (p : Bytes) (stem : Str) :
    Cut (str "q--" ++ b32Encode p ++ str "." ++ stem) 46
      = (str "q--" ++ b32Encode p, stem, true) := by
  have hdot : str "." = [46] := by decide
  rw [hdot, List.append_assoc, List.singleton_append]
  apply Cut_append
  intro hm
  rcases List.mem_append.1 hm with h | h
  · revert h
    decide
  · exact b32Encode_no_dot p h

/-- A hostname made of `q--`, the base32 form of `p`, a dot and the stem is
untied by running `Untie` on `p` with that stem. -/
theorem untieHostname_tied (env : Env) (p : Bytes) (stem : Str) :
    UntieHostname env (str "q--" ++ b32Encode p ++ str "." ++ stem) =
      match Untie env p stem with
      | .panic => .panic
      | .value (nextKnot, b, err) =>
        if (str "q--" ++ b32Encode b ++ str "." ++ stem).length > 253 then
          .value (none, [], some (.untieHostnameTooLong
            (str "q--" ++ b32Encode b ++ str "." ++ stem).length))
        else .value (nextKnot, str "q--" ++ b32Encode b ++ str "." ++ stem, err) := by
  have hq : str "q--" = [113, 45, 45] := by decide
  unfold UntieHostname
  simp only [Cut_tied]
  have hp : (str "q--").isPrefixOf (str "q--" ++ b32Encode p) = true := by
    rw [List.isPrefixOf_iff_prefix]
    exact List.prefix_append _ _
  have hd : (str "q--" ++ b32Encode p).drop 3 = b32Encode p := by
    rw [hq]
    rfl
  simp only [hp, not_true_eq_false, if_false, hd, b32Decode_encode]

/-! ### Decoding an encoded knot -/

theorem getUint16_put (p : Port) :
    getUint16 (byteOf (p.val / 256)) (byteOf (p.val % 256)) = p := by
  apply Fin.ext
  simp only [getUint16, portOf, byteOf]
  have h1 : p.val / 256 % 256 = p.val / 256 := by omega
  have h2 : p.val % 256 % 256 = p.val % 256 := by omega
  rw [h1, h2, Nat.shiftLeft_eq, Nat.lor_comm, Nat.mul_comm,
    ← Nat.mul_add_lt_is_or (Nat.mod_lt _ (by decide))]
  omega

theorem encodable_type (k : Knot) (h : k.encodable) : (byteOf k.Type).val = k.Type := by
  cases k with
  | ip k =>
    simp only [Knot.encodable] at h
    rcases h with h | h
    · have : Knot.Type (.ip k) = IPv4 := by simp [Knot.Type, IP.Type, h, IPv4len]
      rw [this]
      rfl
    · have : Knot.Type (.ip k) = IPv6 := by simp [Knot.Type, IP.Type, h, IPv4len, IPv6len]
      rw [this]
      rfl
  | domain d => rfl
  | refer d => rfl

theorem decoded_props (k : Knot) (stem : Str) (h : k.encodable) :
    (k.decoded stem).Type = k.Type ∧ (k.decoded stem).Length = k.wire.length ∧
    (k.decoded stem).Encode = .value k.wire := by
  cases k with
  | ip k =>
    exact ⟨rfl, by simp [Knot.decoded, Knot.Length, IP.Length, Knot.wire],
      encode_of_encodable _ h⟩
  | domain d =>
    refine ⟨rfl, ?_, ?_⟩
    · simp only [Knot.decoded, Knot.Length, Domain.Length, Knot.wire, List.length_cons,
        List.length_append, List.length_nil]
    · exact encode_of_encodable (.domain { Addr := d.Addr, IPort := d.IPort }) h
  | refer d =>
    exact ⟨rfl, by simp [Knot.decoded, Knot.Length, Knot.wire], encode_of_encodable _ trivial⟩

theorem port_split (addr : Bytes) (x y : Byte) (tail : Bytes) (n : Nat) (h : addr.length = n) :
    (addr ++ [x, y] ++ tail).take (n + 2) = addr ++ [x, y] ∧
    (addr ++ [x, y] ++ tail).take n = addr ∧
    (addr ++ [x, y] ++ tail).getD n 0 = x ∧
    (addr ++ [x, y] ++ tail).getD (n + 1) 0 = y := by
  subst h
  refine ⟨List.take_left' (by simp), ?_, ?_, ?_⟩
  · rw [List.append_assoc]
    exact List.take_left _ _
  · rw [List.append_assoc, List.getD_append_right _ _ _ _ (le_refl _)]
    simp
  · rw [List.append_assoc, List.getD_append_right _ _ _ _ (by omega)]
    simp

theorem decodeKnot_IPv4 (env : Env) (b : Bytes) (stem : Str) (h : ¬ b.length < 6) :
    decodeKnot env IPv4 b stem =
      match DecodeIPv4 (b.take 6) with
      | .ok k => .value (some (.ip k), none)
      | .error e => .value (none, some e) := by
  unfold decodeKnot
  rw [if_pos rfl, if_neg (by simpa [IPv4len] using h)]
  rfl

theorem decodeKnot_IPv6 (env : Env) (b : Bytes) (stem : Str) (h : ¬ b.length < 18) :
    decodeKnot env IPv6 b stem =
      match DecodeIPv6 (b.take 18) with
      | .ok k => .value (some (.ip k), none)
      | .error e => .value (none, some e) := by
  unfold decodeKnot
  rw [if_neg (by decide), if_pos rfl, if_neg (by simpa [IPv6len] using h)]
  rfl

theorem decodeKnot_Domain (env : Env) (b : Bytes) (stem : Str) :
    decodeKnot env DomainName b stem =
      match DecodeDomain env b with
      | .panic => .panic
      | .value (.ok d) => .value (some (.domain d), none)
      | .value (.error e) => .value (none, some e) := by
  unfold decodeKnot
  rw [if_neg (by decide), if_neg (by decide), if_pos rfl]

theorem decodeKnot_Refer (env : Env) (b : Bytes) (stem : Str) :
    decodeKnot env ReferDomain b stem =
      match DecodeRefer b stem with
      | .ok d => .value (some (.refer d), none)
      | .error e => .value (none, some e) := by
  unfold decodeKnot
  rw [if_neg (by decide), if_neg (by decide), if_neg (by decide), if_pos rfl]

theorem DecodeIPv4_wire (addr : Bytes) (port : Port) (h : addr.length = 4) :
    DecodeIPv4 (addr ++ [byteOf (port.val / 256), byteOf (port.val % 256)])
      = .ok { Addr := addr, IPort := port } := by
  obtain ⟨_, h2, h3, h4⟩ := port_split addr (byteOf (port.val / 256))
    (byteOf (port.val % 256)) [] 4 h
  rw [List.append_nil] at h2 h3 h4
  unfold DecodeIPv4
  rw [if_neg (by simp [h, IPv4len])]
  simp only [IPv4len, h2, h3, h4, getUint16_put]

theorem DecodeIPv6_wire (addr : Bytes) (port : Port) (h : addr.length = 16) :
    DecodeIPv6 (addr ++ [byteOf (port.val / 256), byteOf (port.val % 256)])
      = .ok { Addr := addr, IPort := port } := by
  obtain ⟨_, h2, h3, h4⟩ := port_split addr (byteOf (port.val / 256))
    (byteOf (port.val % 256)) [] 16 h
  rw [List.append_nil] at h2 h3 h4
  unfold DecodeIPv6
  rw [if_neg (by simp [h, IPv6len])]
  simp only [IPv6len, h2, h3, h4, getUint16_put]

theorem DecodeDomain_wire (env : Env) (addr : Str) (port : Port) (tail : Bytes)
    (hlen : addr.length ≤ 255) (hp : port ≠ 0) :
    DecodeDomain env (byteOf addr.length :: (addr ++
        [byteOf (port.val / 256), byteOf (port.val % 256)] ++ tail))
      = .value (.ok { Addr := addr, IPort := port }) := by
  have hb : (byteOf addr.length).val = addr.length := by
    simp only [byteOf]
    omega
  obtain ⟨_, h1, h2, h3⟩ := port_split addr (byteOf (port.val / 256))
    (byteOf (port.val % 256)) tail addr.length rfl
  have hl : ¬ (byteOf addr.length :: (addr ++ [byteOf (port.val / 256),
      byteOf (port.val % 256)] ++ tail)).length < addr.length + 3 := by
    simp only [List.length_append, List.length_cons, List.length_nil]
    omega
  simp only [DecodeDomain, hb, List.drop_succ_cons, List.drop_zero, List.getD_cons_succ]
  rw [if_neg hl]
  simp only [h1, h2, h3, getUint16_put]
  rw [if_neg hp]

theorem DecodeRefer_wire (port : Port) (tail : Bytes) (stem : Str) :
    DecodeRefer ([byteOf (port.val / 256), byteOf (port.val % 256)] ++ tail) stem
      = .ok { Addr := stem, IPort := port } := by
  unfold DecodeRefer
  rw [if_neg (by simp)]
  simp only [List.cons_append, List.getD_cons_zero, List.getD_cons_succ, getUint16_put]

theorem decodeKnot_wire (env : Env) (k : Knot) (tail : Bytes) (stem : Str)
    (henc : k.encodable) (hd : k.direct) :
    decodeKnot env k.Type (k.wire ++ tail) stem = .value (some (k.decoded stem), none) := by
  cases k with
  | ip k =>
    obtain ⟨addr, port⟩ := k
    simp only [Knot.encodable] at henc
    rcases henc with h | h
    · have ht : Knot.Type (.ip ⟨addr, port⟩) = IPv4 := by simp [Knot.Type, IP.Type, h, IPv4len]
      have h1 := (port_split addr (byteOf (port.val / 256)) (byteOf (port.val % 256))
        tail 4 h).1
      rw [ht, Knot.wire, decodeKnot_IPv4 _ _ _ (by simp [h]; omega), h1, DecodeIPv4_wire _ _ h]
      rfl
    · have ht : Knot.Type (.ip ⟨addr, port⟩) = IPv6 := by
        simp [Knot.Type, IP.Type, h, IPv4len, IPv6len]
      have h1 := (port_split addr (byteOf (port.val / 256)) (byteOf (port.val % 256))
        tail 16 h).1
      rw [ht, Knot.wire, decodeKnot_IPv6 _ _ _ (by simp [h]; omega), h1, DecodeIPv6_wire _ _ h]
      rfl
  | domain d =>
    obtain ⟨addr, port, ips, dyn⟩ := d
    simp only [Knot.encodable] at henc
    simp only [Knot.direct] at hd
    have ht : Knot.Type (.domain ⟨addr, port, ips, dyn⟩) = DomainName := rfl
    have hw : Knot.wire (.domain ⟨addr, port, ips, dyn⟩) ++ tail
        = byteOf addr.length :: (addr ++ [byteOf (port.val / 256), byteOf (port.val % 256)]
            ++ tail) := rfl
    rw [ht, hw, decodeKnot_Domain, DecodeDomain_wire env addr port tail henc hd]
    rfl
  | refer d =>
    have ht : Knot.Type (.refer d) = ReferDomain := rfl
    rw [ht, Knot.wire, decodeKnot_Refer, DecodeRefer_wire]
    rfl

/-! ### Untying a tied chain -/

theorem untie_knot (env : Env) (stem : Str) (f : Byte) (payload : Bytes) (c : Byte) (k : Knot)
    (tail : Bytes) (hver : f.val &&& 0b00111111 = Version1)
    (hread : (if f.val >>> 6 = Deflate then env.inflate payload else some payload)
      = some (c :: byteOf k.Type :: (k.wire ++ tail)))
    (hc : c.val >>> 4 ≠ c.val &&& 0b00001111) (henc : k.encodable) (hd : k.direct) :
    Untie env (f :: payload) stem =
      .value (some (k.decoded stem),
        f :: (if f.val >>> 6 = Deflate then env.deflate ((tail ++ [byteOf k.Type]) ++ k.wire)
              else (tail ++ [byteOf k.Type]) ++ k.wire), none) := by
  obtain ⟨ht, hl, he⟩ := decoded_props k stem henc
  unfold Untie
  simp only [hver, ne_eq, not_true_eq_false, if_false, hread, if_neg hc, encodable_type k henc,
    decodeKnot_wire env k tail stem henc hd, hl, he, ht]
  rw [if_neg (by simp)]
  simp [List.drop_left]

theorem encodable_of_encode (k : Knot) (e : Bytes) (h : k.Encode = .value e) : k.encodable := by
  cases k with
  | ip k =>
    simp only [Knot.Encode, IP.Encode, IP.Type, IPv4len, IPv6len, IPv4, IPv6] at h
    simp only [Knot.encodable]
    by_cases h4 : k.Addr.length = 4
    · exact Or.inl h4
    · by_cases h16 : k.Addr.length = 16
      · exact Or.inr h16
      · simp [h4, h16] at h
  | domain d =>
    simp only [Knot.Encode, Domain.Encode] at h
    simp only [Knot.encodable]
    by_contra hc
    rw [if_pos (by omega)] at h
    cases h
  | refer d => trivial

theorem encodable_of_writeKnots (ks : List Knot) (buf r : Bytes)
    (h : writeKnots buf ks = .value r) : ∀ k ∈ ks, k.encodable := by
  induction ks generalizing buf with
  | nil => simp
  | cons k ks ih =>
    simp only [writeKnots] at h
    cases he : k.Encode with
    | panic => simp [he] at h
    | value e =>
      simp only [he] at h
      intro x hx
      rcases List.mem_cons.1 hx with rfl | hx
      · exact encodable_of_encode _ e he
      · exact ih _ h x hx

theorem tieChain_ok (env : Env) (chain : KnotChain) (b : Bytes)
    (h : TieChain env chain = .value (.ok b)) :
    chain.Knots.length ≤ 15 ∧ (∀ k ∈ chain.Knots, k.encodable) ∧
    b = (if (env.deflate (wireBody chain)).length ≥ (wireBody chain).length
          then chain.Version :: wireBody chain
          else byteOf (64 + chain.Version.val) :: env.deflate (wireBody chain)) := by
  have hn : chain.Knots.length ≤ 15 := by
    by_contra hc
    simp only [TieChain] at h
    rw [if_pos (by omega)] at h
    cases h
  have henc : ∀ k ∈ chain.Knots, k.encodable := by
    cases hw : writeKnots [byteOf chain.Knots.length] chain.Knots with
    | panic =>
      simp only [TieChain, hw] at h
      rw [if_neg (by omega)] at h
      cases h
    | value r => exact encodable_of_writeKnots _ _ _ hw
  refine ⟨hn, henc, ?_⟩
  have hb : writeKnots [byteOf chain.Knots.length] chain.Knots = .value (wireBody chain) := by
    rw [writeKnots_wire chain.Knots henc]
    rfl
  rw [tieChain_of_body env chain _ hn hb] at h
  simp only [Exec.value.injEq, Except.ok.injEq] at h
  exact h.symm

theorem tryRefer_knots (env : Env) (chain : KnotChain) (stem : Str) :
    (tryRefer env chain stem).Version = chain.Version ∧
    (tryRefer env chain stem).Knots = chain.Knots.map (fun k =>
      if refersToStem env stem k then
        (match k with
         | .domain d => .refer d
         | other => other)
      else k) := by
  unfold tryRefer
  by_cases hany : chain.Knots.any (refersToStem env stem) = true
  · rw [if_pos hany]
    exact ⟨rfl, rfl⟩
  · rw [if_neg hany]
    refine ⟨rfl, ?_⟩
    have hall : ∀ k ∈ chain.Knots, refersToStem env stem k = false := by
      intro k hk
      by_contra hne
      apply hany
      rw [List.any_eq_true]
      exact ⟨k, hk, by simpa using hne⟩
    conv_lhs => rw [← List.map_id chain.Knots]
    apply List.map_congr_left
    intro k hk
    simp [hall k hk]

theorem counter_nibbles (n : Nat) (h1 : 1 ≤ n) (h15 : n ≤ 15) :
    (byteOf n).val >>> 4 ≠ (byteOf n).val &&& 0b00001111 := by
  interval_cases n <;> decide

theorem b32_host_length (b : Bytes) (stem : Str) :
    (str "q--" ++ b32Encode b ++ str "." ++ stem).length
      = 3 + (8 * b.length + 4) / 5 + 1 + stem.length := by
  have hq : (str "q--").length = 3 := by decide
  have hd : (str ".").length = 1 := by decide
  simp only [List.length_append, b32Encode_length, hq, hd]

/-- The hostname of a tied chain with version 1 whose first knot needs no DNS
lookup: `UntieHostname` returns the first knot as decoded, unless the payload
was compressed and the rewritten hostname is longer than 253 octets. -/
theorem untieHostname_after_tie (env : Env) (chain : KnotChain) (stem : Str) (k0 : Knot)
    (rest : List Knot) (b : Bytes) (hinv : ∀ x, env.inflate (env.deflate x) = some x)
    (hv : chain.Version = 1) (hk : chain.Knots = k0 :: rest) (hd : k0.direct)
    (hT : TieChain env chain = .value (.ok b))
    (hlen : (str "q--" ++ b32Encode b ++ str "." ++ stem).length ≤ 253) :
    (∃ newHost, UntieHostname env (str "q--" ++ b32Encode b ++ str "." ++ stem)
        = .value (some (k0.decoded stem), newHost, none)) ∨
    ((env.deflate (wireBody chain)).length < (wireBody chain).length ∧
      ∃ n, 253 < n ∧ UntieHostname env (str "q--" ++ b32Encode b ++ str "." ++ stem)
        = .value (none, [], some (.untieHostnameTooLong n))) := by
  obtain ⟨hn, henc, hb⟩ := tieChain_ok env chain b hT
  have henc0 : k0.encodable := henc k0 (by rw [hk]; exact List.mem_cons_self _ _)
  have hbody : wireBody chain = byteOf chain.Knots.length :: byteOf k0.Type ::
      (k0.wire ++ rest.flatMap (fun k => byteOf k.Type :: k.wire)) := by
    simp only [wireBody, hk, List.flatMap_cons, List.cons_append]
  have hcnt := counter_nibbles chain.Knots.length (by rw [hk]; simp) hn
  rw [untieHostname_tied]
  by_cases hc : (env.deflate (wireBody chain)).length ≥ (wireBody chain).length
  · left
    rw [if_pos hc, hv] at hb
    subst hb
    rw [untie_knot env stem 1 (wireBody chain) _ k0 _ (by decide)
      (by rw [if_neg (by decide), hbody]) hcnt henc0 hd]
    rw [if_neg (by decide)]
    simp only
    rw [if_neg]
    · exact ⟨_, rfl⟩
    · rw [b32_host_length] at hlen ⊢
      rw [hbody] at hlen
      simp only [List.length_cons, List.length_append, List.length_nil] at hlen ⊢
      omega
  · rw [if_neg hc, hv] at hb
    have h41 : byteOf (64 + (1 : Byte).val) = 0x41 := by decide
    rw [h41] at hb
    subst hb
    rw [untie_knot env stem 0x41 (env.deflate (wireBody chain)) _ k0 _ (by decide)
      (by rw [if_pos (by decide), hinv, hbody]) hcnt henc0 hd]
    rw [if_pos (by decide)]
    simp only
    split_ifs with hl
    · right
      exact ⟨by omega, _, hl, rfl⟩
    · left
      exact ⟨_, rfl⟩

theorem dictEnv_inverse (w x : Bytes) : (dictEnv w).inflate ((dictEnv w).deflate x) = some x := by
  simp only [dictEnv]
  by_cases hp : w.isPrefixOf x = true
  · rw [if_pos hp]
    simp only [if_true]
    rw [List.isPrefixOf_iff_prefix] at hp
    obtain ⟨t, rfl⟩ := hp
    rw [List.drop_left]
  · rw [if_neg hp]
    simp

theorem tieChainToHostname_ok (env : Env) (chain : KnotChain) (stem h : Str)
    (hh : TieChainToHostname env chain stem = .value (.ok h)) :
    ∃ b, TieChain env (tryRefer env chain stem) = .value (.ok b) ∧
      h = str "q--" ++ b32Encode b ++ str "." ++ stem ∧ h.length ≤ 253 := by
  unfold TieChainToHostname at hh
  cases hT : TieChain env (tryRefer env chain stem) with
  | panic => simp [hT] at hh
  | value r =>
    cases r with
    | error e => simp [hT] at hh
    | ok b =>
      simp only [hT] at hh
      by_cases hl : (str "q--" ++ b32Encode b ++ str "." ++ stem).length > 253
      · rw [if_pos hl] at hh
        cases hh
      · rw [if_neg hl] at hh
        simp only [Exec.value.injEq, Except.ok.injEq] at hh
        exact ⟨b, rfl, hh.symm, by rw [← hh]; omega⟩


/-! ### Round trips through the hostname -/

/-- C1 (the code departs from it). With any DEFLATE that does not shorten the
9-octet body of the chain `[IPv4 10.0.0.1:8443]`, the chain ties under the stem
`a.test`, the first `UntieHostname` returns the knot and a hostname whose
payload has lost the counter octet, and the second `UntieHostname` faults
instead of returning `ErrNoKnotToUntie`. -/
theorem untieHostname_second_call_faults (env : Env)
    (h : (env.deflate (wireBody chainIPv4)).length ≥ (wireBody chainIPv4).length) :
    TieChainToHostname env chainIPv4 (str "a.test")
      = .value (.ok (str "q--aeaqccqaaaasb6y.a.test")) ∧
    UntieHostname env (str "q--aeaqccqaaaasb6y.a.test")
      = .value (some (.ip { Addr := [10, 0, 0, 1], IPort := 8443 }),
          str "q--aeaquaaaaeqpw.a.test", none) ∧
    UntieHostname env (str "q--aeaquaaaaeqpw.a.test") = .panic := by
  refine ⟨?_, rfl, rfl⟩
  have ht : tryRefer env chainIPv4 (str "a.test") = chainIPv4 := rfl
  unfold TieChainToHostname
  rw [ht, tieChain_of_body env chainIPv4 (wireBody chainIPv4) (by decide) rfl, if_pos h]
  rfl

theorem untieHostname_second_call_faults_witness :
    TieChainToHostname (dictEnv []) chainIPv4 (str "a.test")
      = .value (.ok (str "q--aeaqccqaaaasb6y.a.test")) ∧
    UntieHostname (dictEnv []) (str "q--aeaqccqaaaasb6y.a.test")
      = .value (some (.ip { Addr := [10, 0, 0, 1], IPort := 8443 }),
          str "q--aeaquaaaaeqpw.a.test", none) ∧
    UntieHostname (dictEnv []) (str "q--aeaquaaaaeqpw.a.test") = .panic :=
  untieHostname_second_call_faults (dictEnv []) (by decide)

/-- C2 (as amended). For a chain with version 1 whose first knot is an IPv4
knot, an IPv6 knot or a Domain knot with non-zero declared port and host other
than the stem, with a DEFLATE decoder that inverts the encoder: when
`TieChainToHostname` returns `h`, `UntieHostname h` returns no error and a knot
with the type tag, host and port of the first knot, unless the payload was
stored compressed and the rewritten hostname is longer than 253 octets, in
which case it returns the "new hostname is too long" error and no knot. -/
theorem untieHostname_first_knot (env : Env) (chain : KnotChain) (stem h : Str) (k0 : Knot)
    (rest : List Knot) (hinv : ∀ x, env.inflate (env.deflate x) = some x)
    (hv : chain.Version = 1) (hk : chain.Knots = k0 :: rest) (h0 : k0.plain stem)
    (ht : TieChainToHostname env chain stem = .value (.ok h)) :
    (∃ k newHost, UntieHostname env h = .value (some k, newHost, none) ∧
      k.Type = k0.Type ∧ k.Host env = k0.Host env ∧ k.Port = k0.Port) ∨
    ((env.deflate (wireBody (tryRefer env chain stem))).length
        < (wireBody (tryRefer env chain stem)).length ∧
      ∃ n, 253 < n ∧
        UntieHostname env h = .value (none, [], some (.untieHostnameTooLong n))) := by
  obtain ⟨b, hT, rfl, hlen⟩ := tieChainToHostname_ok env chain stem h ht
  obtain ⟨hver, hkn⟩ := tryRefer_knots env chain stem
  have hno : refersToStem env stem k0 = false := by
    cases k0 with
    | ip k =>
      simp only [refersToStem, Knot.Type, IP.Type, IPv4len, IPv6len, IPv4, IPv6, DomainName]
      split_ifs <;> simp
    | domain d =>
      simp only [Knot.plain] at h0
      simp [refersToStem, Knot.Type, Knot.Host, h0.2.2]
    | refer d => simp [refersToStem, Knot.Type, ReferDomain, DomainName]
  have hk2 : (tryRefer env chain stem).Knots = k0 :: rest.map (fun k =>
      if refersToStem env stem k then
        (match k with
         | .domain d => .refer d
         | other => other)
      else k) := by
    rw [hkn, hk, List.map_cons, hno]
    rfl
  have hd : k0.direct := by
    cases k0 with
    | ip k => trivial
    | domain d => exact h0.1
    | refer d => trivial
  have hsame : (k0.decoded stem).Type = k0.Type ∧ (k0.decoded stem).Host env = k0.Host env ∧
      (k0.decoded stem).Port = k0.Port := by
    cases k0 with
    | ip k => exact ⟨rfl, rfl, rfl⟩
    | domain d =>
      refine ⟨rfl, rfl, ?_⟩
      simp only [Knot.plain] at h0
      simp [Knot.decoded, Knot.Port, Domain.Port, h0.2.1]
    | refer d => exact absurd h0 (by simp [Knot.plain])
  rcases untieHostname_after_tie env (tryRefer env chain stem) stem k0 _ b hinv
    (by rw [hver, hv]) hk2 hd hT hlen with ⟨newHost, hu⟩ | hbad
  · exact Or.inl ⟨_, newHost, hu, hsame⟩
  · exact Or.inr hbad

theorem untieHostname_first_knot_witness :
    (∃ k newHost, UntieHostname (dictEnv []) (str "q--aeaqccqaaaasb6y.a.test")
        = .value (some k, newHost, none) ∧
      k.Type = (Knot.ip { Addr := [10, 0, 0, 1], IPort := 8443 }).Type ∧
      k.Host (dictEnv []) = (Knot.ip { Addr := [10, 0, 0, 1], IPort := 8443 }).Host (dictEnv []) ∧
      k.Port = (Knot.ip { Addr := [10, 0, 0, 1], IPort := 8443 }).Port) ∨
    (((dictEnv []).deflate (wireBody (tryRefer (dictEnv []) chainIPv4 (str "a.test")))).length
        < (wireBody (tryRefer (dictEnv []) chainIPv4 (str "a.test"))).length ∧
      ∃ n, 253 < n ∧ UntieHostname (dictEnv []) (str "q--aeaqccqaaaasb6y.a.test")
        = .value (none, [], some (.untieHostnameTooLong n))) :=
  untieHostname_first_knot (dictEnv []) chainIPv4 (str "a.test")
    (str "q--aeaqccqaaaasb6y.a.test") (.ip { Addr := [10, 0, 0, 1], IPort := 8443 }) []
    (dictEnv_inverse []) rfl rfl (by decide) (by decide)

/-- C2 (as stated) fails: with the dictionary codec for the word `01 01 0a`,
whose decoder inverts its encoder, the version-1 chain `[IPv4 10.0.0.1:8443]`
ties under a 237-octet stem to a hostname of 253 octets, and `UntieHostname` on
that hostname returns the error "new hostname is too long" (256 octets) and no
knot. -/
theorem untieHostname_first_knot_counterexample :
    (∀ x, (dictEnv [1, 1, 10]).inflate ((dictEnv [1, 1, 10]).deflate x) = some x) ∧
    chainIPv4.Version = 1 ∧
    chainIPv4.Knots = [.ip { Addr := [10, 0, 0, 1], IPort := 8443 }] ∧
    TieChainToHostname (dictEnv [1, 1, 10]) chainIPv4 (labelStem 54)
      = .value (.ok (str "q--ieaaaaabed5q." ++ labelStem 54)) ∧
    UntieHostname (dictEnv [1, 1, 10]) (str "q--ieaaaaabed5q." ++ labelStem 54)
      = .value (none, [], some (.untieHostnameTooLong 256)) :=
  ⟨dictEnv_inverse [1, 1, 10], rfl, rfl, by decide, by decide⟩

/-- C3 (the code departs from it). On the raw payload of the chain
`[IPv4 10.0.0.1:8443]` (framing octet `01`, counter octet `01`, tag `01`, body)
`Untie` returns the knot and the octets `01 01 0a 00 00 01 20 fb`: the framing
octet, then tag and body of the peeled knot, without any counter octet. -/
theorem untie_drops_counter (env : Env) (stem : Str) :
    Untie env [0x01, 0x01, 0x01, 10, 0, 0, 1, 0x20, 0xfb] stem
      = .value (some (.ip { Addr := [10, 0, 0, 1], IPort := 8443 }),
          [0x01, 0x01, 10, 0, 0, 1, 0x20, 0xfb], none) ∧
    TieChain (dictEnv []) chainIPv4
      = .value (.ok [0x01, 0x01, 0x01, 10, 0, 0, 1, 0x20, 0xfb]) :=
  ⟨rfl, by decide⟩

/-- C10 (as amended). For a chain with version 1 whose first knot is the
Domain knot of the stem with declared port `p`, with a DEFLATE decoder that
inverts the encoder: when `TieChainToHostname` returns `h`, `UntieHostname h`
returns no error and a Refer knot whose host is the stem and whose port is `p`,
unless the payload was stored compressed and the rewritten hostname is longer
than 253 octets, in which case it returns the "new hostname is too long" error
and no knot. -/
theorem untieHostname_refer (env : Env) (chain : KnotChain) (stem h : Str) (p : Port)
    (rest : List Knot) (hinv : ∀ x, env.inflate (env.deflate x) = some x)
    (hv : chain.Version = 1)
    (hk : chain.Knots = .domain { Addr := stem, IPort := p } :: rest)
    (ht : TieChainToHostname env chain stem = .value (.ok h)) :
    (∃ k newHost, UntieHostname env h = .value (some k, newHost, none) ∧
      k.Type = ReferDomain ∧ k.Host env = stem ∧ k.Port = p) ∨
    ((env.deflate (wireBody (tryRefer env chain stem))).length
        < (wireBody (tryRefer env chain stem)).length ∧
      ∃ n, 253 < n ∧
        UntieHostname env h = .value (none, [], some (.untieHostnameTooLong n))) := by
  obtain ⟨b, hT, rfl, hlen⟩ := tieChainToHostname_ok env chain stem h ht
  obtain ⟨hver, hkn⟩ := tryRefer_knots env chain stem
  have hyes : refersToStem env stem (.domain { Addr := stem, IPort := p }) = true :=
    (refersToStem_iff env stem _).2 ⟨_, rfl, rfl⟩
  have hk2 : (tryRefer env chain stem).Knots
      = .refer { Addr := stem, IPort := p } :: rest.map (fun k =>
      if refersToStem env stem k then
        (match k with
         | .domain d => .refer d
         | other => other)
      else k) := by
    rw [hkn, hk, List.map_cons, hyes]
    rfl
  rcases untieHostname_after_tie env (tryRefer env chain stem) stem _ _ b hinv
    (by rw [hver, hv]) hk2 trivial hT hlen with ⟨newHost, hu⟩ | hbad
  · exact Or.inl ⟨_, newHost, hu, rfl, rfl, rfl⟩
  · exact Or.inr hbad

theorem untieHostname_refer_witness :
    (∃ k newHost, UntieHostname (dictEnv []) (str "q--aebkcan3amegeylsfz2gk43uag5q.foo.test")
        = .value (some k, newHost, none) ∧
      k.Type = ReferDomain ∧ k.Host (dictEnv []) = str "foo.test" ∧ k.Port = 443) ∨
    (((dictEnv []).deflate (wireBody (tryRefer (dictEnv []) chainFooBar (str "foo.test")))).length
        < (wireBody (tryRefer (dictEnv []) chainFooBar (str "foo.test"))).length ∧
      ∃ n, 253 < n ∧ UntieHostname (dictEnv []) (str "q--aebkcan3amegeylsfz2gk43uag5q.foo.test")
        = .value (none, [], some (.untieHostnameTooLong n))) :=
  untieHostname_refer (dictEnv []) chainFooBar (str "foo.test")
    (str "q--aebkcan3amegeylsfz2gk43uag5q.foo.test") 443
    [.domain { Addr := str "bar.test", IPort := 443 }]
    (dictEnv_inverse []) rfl rfl (by decide)

/-- C10 (as stated) fails: with the dictionary codec for the word `01 a1`,
whose decoder inverts its encoder, the version-1 chain of one Domain knot that
names the 242-octet stem ties to a hostname of 253 octets, and `UntieHostname`
on that hostname returns the error "new hostname is too long" (254 octets) and
no knot. -/
theorem untieHostname_refer_counterexample :
    (∀ x, (dictEnv [1, 0xa1]).inflate ((dictEnv [1, 0xa1]).deflate x) = some x) ∧
    chainStem.Version = 1 ∧
    chainStem.Knots = [.domain { Addr := labelStem 59, IPort := 443 }] ∧
    TieChainToHostname (dictEnv [1, 0xa1]) chainStem (labelStem 59)
      = .value (.ok (str "q--ieaadoy." ++ labelStem 59)) ∧
    UntieHostname (dictEnv [1, 0xa1]) (str "q--ieaadoy." ++ labelStem 59)
      = .value (none, [], some (.untieHostnameTooLong 254)) :=
  ⟨dictEnv_inverse [1, 0xa1], rfl, rfl, by decide, by decide⟩

/-! ### Port-allow bitmap -/

/-- C4 (the code departs from it). On `AllowPorts = "80-443"`, a range with
`80 <= 443`, `BuildPortmap` returns the error "invalid port range" (the bounds
are compared as strings) and leaves every port of the range disallowed, while
the list `80,443,10000-65535` is accepted. -/
theorem buildPortmap_rejects_80_443 :
    (BuildPortmap { AllowPorts := str "80-443" }).2
      = some (.invalidPortRange (str "80-443")) ∧
    IsPortAllowed (BuildPortmap { AllowPorts := str "80-443" }).1 80 = false ∧
    IsPortAllowed (BuildPortmap { AllowPorts := str "80-443" }).1 443 = false ∧
    strLt (str "443") (str "80") = true ∧
    (BuildPortmap { AllowPorts := str "80,443,10000-65535" }).2 = none := by
  decide

/-! ### Hostnames without a chain, unknown versions -/

theorem Cut_fst (s : Str) (sep : Byte) :
    (Cut s sep).1 = s.takeWhile (fun c => c ≠ sep) ∧
    ((Cut s sep).2.2 = false → (Cut s sep).1 = s) := by
  induction s with
  | nil => simp [Cut]
  | cons c cs ih =>
    by_cases hc : c = sep
    · subst hc
      simp [Cut]
    · by_cases hf : (Cut cs sep).2.2 = true
      · simp [Cut, hc, hf, ih.1]
      · have hf2 : (Cut cs sep).2.2 = false := by simpa using hf
        have h1 := ih.1
        rw [ih.2 hf2] at h1
        simp only [Cut, if_neg hc, hf2, Bool.false_eq_true, if_false, true_implies, and_true]
        rw [List.takeWhile_cons, if_pos (by simpa using hc), ← h1]

/-- C11. A hostname whose first DNS label (the text before the first dot, or
the whole hostname when there is no dot) does not start with `q--` makes
`UntieHostname` return no knot, the hostname unchanged and the error
`ErrNoKnotToUntie`. -/
theorem untieHostname_without_prefix (env : Env) (h : Str)
    (hp : ¬ (str "q--") <+: firstLabel h) :
    UntieHostname env h = .value (none, h, some .noKnotToUntie) := by
  have hc : (Cut h 46).1 = firstLabel h := (Cut_fst h 46).1
  unfold UntieHostname
  simp only [hc]
  rw [if_pos]
  rw [List.isPrefixOf_iff_prefix]
  exact hp

theorem untieHostname_without_prefix_witness :
    UntieHostname (dictEnv []) (str "svc.example")
      = .value (none, str "svc.example", some .noKnotToUntie) :=
  untieHostname_without_prefix (dictEnv []) (str "svc.example") (by decide)

/-- C14. On a non-empty byte string whose framing octet has a version field
(low six bits) other than `0x01`, `Untie` returns the "not supported Version"
error, no knot and no output octets, whatever the compression bits and the
rest of the string are. -/
theorem untie_unknown_version (env : Env) (f : Byte) (rest : Bytes) (stem : Str)
    (hv : f.val &&& 0b00111111 ≠ Version1) :
    Untie env (f :: rest) stem
      = .value (none, [], some (.unsupportedVersion (f.val &&& 0b00111111))) := by
  unfold Untie
  simp only
  rw [if_pos hv]

theorem untie_unknown_version_witness :
    Untie (dictEnv []) [0x42, 0x01, 0x01, 10, 0, 0, 1, 0x20, 0xfb] (str "a.test")
      = .value (none, [], some (.unsupportedVersion ((0x42 : Byte).val &&& 0b00111111))) :=
  untie_unknown_version (dictEnv []) 0x42 [0x01, 0x01, 10, 0, 0, 1, 0x20, 0xfb] (str "a.test")
    (by decide)


/-! ### The terminal state -/

theorem untie_terminal (env : Env) (stem : Str) (f : Byte) (payload : Bytes) (c : Byte)
    (rest : Bytes) (hver : f.val &&& 0b00111111 = Version1)
    (hread : (if f.val >>> 6 = Deflate then env.inflate payload else some payload)
      = some (c :: rest))
    (hc : c.val >>> 4 = c.val &&& 0b00001111) :
    Untie env (f :: payload) stem =
      .value (none,
        f :: (if f.val >>> 6 = Deflate then env.deflate (byteOf (c.val &&& 0b00001111) :: rest)
              else byteOf (c.val &&& 0b00001111) :: rest),
        some .noKnotToUntie) := by
  unfold Untie
  simp only [hver, ne_eq, not_true_eq_false, if_false, hread, hc, if_true]

theorem counter_reset_iff (c : Byte) (hc : c.val >>> 4 = c.val &&& 0b00001111) :
    byteOf (c.val &&& 0b00001111) = c ↔ c.val >>> 4 = 0 := by
  revert c
  decide

theorem reset_nibbles (c : Byte) :
    (byteOf (c.val &&& 0b00001111)).val >>> 4 = 0 ∧
    (byteOf (c.val &&& 0b00001111)).val &&& 0b00001111 = c.val &&& 0b00001111 := by
  revert c
  decide

/-- C12 (as amended). On a raw version-1 payload whose counter octet has
current hop equal to total hops, `Untie` returns no knot, the error
`ErrNoKnotToUntie`, and the framing octet, the counter octet with its
current-hop nibble reset to 0, and the remaining octets unchanged; the output
is the input exactly when the two nibbles are 0. -/
theorem untie_terminal_resets_hop (env : Env) (stem : Str) (f c : Byte) (rest : Bytes)
    (hver : f.val &&& 0b00111111 = Version1) (hraw : f.val >>> 6 = NotCompressed)
    (hc : c.val >>> 4 = c.val &&& 0b00001111) :
    Untie env (f :: c :: rest) stem
      = .value (none, f :: byteOf (c.val &&& 0b00001111) :: rest, some .noKnotToUntie) ∧
    (byteOf (c.val &&& 0b00001111)).val >>> 4 = 0 ∧
    (byteOf (c.val &&& 0b00001111)).val &&& 0b00001111 = c.val &&& 0b00001111 ∧
    (f :: byteOf (c.val &&& 0b00001111) :: rest = f :: c :: rest ↔ c.val >>> 4 = 0) := by
  have hnd : ¬ f.val >>> 6 = Deflate := by
    rw [hraw]
    decide
  have h := untie_terminal env stem f (c :: rest) c rest hver (by rw [if_neg hnd]) hc
  rw [if_neg hnd] at h
  refine ⟨h, (reset_nibbles c).1, (reset_nibbles c).2, ?_⟩
  rw [← counter_reset_iff c hc]
  simp

theorem untie_terminal_resets_hop_witness :
    Untie (dictEnv []) [0x01, 0x22, 0x01, 10, 0, 0, 1, 0x20, 0xfb, 0xa1, 0x01, 0xbb] (str "a.test")
      = .value (none,
          0x01 :: byteOf ((0x22 : Byte).val &&& 0b00001111)
            :: [0x01, 10, 0, 0, 1, 0x20, 0xfb, 0xa1, 0x01, 0xbb],
          some .noKnotToUntie) ∧
    (byteOf ((0x22 : Byte).val &&& 0b00001111)).val >>> 4 = 0 ∧
    (byteOf ((0x22 : Byte).val &&& 0b00001111)).val &&& 0b00001111
      = (0x22 : Byte).val &&& 0b00001111 ∧
    (0x01 :: byteOf ((0x22 : Byte).val &&& 0b00001111)
        :: [0x01, 10, 0, 0, 1, 0x20, 0xfb, 0xa1, 0x01, 0xbb]
      = 0x01 :: 0x22 :: [0x01, 10, 0, 0, 1, 0x20, 0xfb, 0xa1, 0x01, 0xbb]
      ↔ (0x22 : Byte).val >>> 4 = 0) :=
  untie_terminal_resets_hop (dictEnv []) (str "a.test") 0x01 0x22
    [0x01, 10, 0, 0, 1, 0x20, 0xfb, 0xa1, 0x01, 0xbb] (by decide) (by decide) (by decide)

/-- C12 (as stated) fails: on the raw version-1 payload
`01 11 01 0a 00 00 01 20 fb` (current hop 1, total hops 1) `Untie` returns
`01 01 01 0a 00 00 01 20 fb`, which is not the input. -/
theorem untie_terminal_counterexample :
    (0x11 : Byte).val >>> 4 = (0x11 : Byte).val &&& 0b00001111 ∧
    Untie (dictEnv []) [0x01, 0x11, 0x01, 10, 0, 0, 1, 0x20, 0xfb] (str "a.test")
      = .value (none, [0x01, 0x01, 0x01, 10, 0, 0, 1, 0x20, 0xfb], some .noKnotToUntie) ∧
    ([0x01, 0x01, 0x01, 10, 0, 0, 1, 0x20, 0xfb] : Bytes)
      ≠ [0x01, 0x11, 0x01, 10, 0, 0, 1, 0x20, 0xfb] := by
  decide

theorem Cut_label (label stem : Str) (hdot : (46 : Byte) ∉ label) :
    Cut (str "q--" ++ label ++ str "." ++ stem) 46 = (str "q--" ++ label, stem, true) := by
  have hd : str "." = [46] := by decide
  rw [hd, List.append_assoc, List.singleton_append]
  apply Cut_append
  intro hm
  rcases List.mem_append.1 hm with h | h
  · revert h
    decide
  · exact hdot h

/-- A hostname `q--<label>.<stem>` is untied by decoding the label and running
`Untie` with the stem. -/
theorem untieHostname_label (env : Env) (label stem : Str) (hdot : (46 : Byte) ∉ label) :
    UntieHostname env (str "q--" ++ label ++ str "." ++ stem) =
      match b32Decode label with
      | .error err => .value (none, [], some err)
      | .ok p =>
        match Untie env p stem with
        | .panic => .panic
        | .value (nextKnot, b, err) =>
          if (str "q--" ++ b32Encode b ++ str "." ++ stem).length > 253 then
            .value (none, [], some (.untieHostnameTooLong
              (str "q--" ++ b32Encode b ++ str "." ++ stem).length))
          else .value (nextKnot, str "q--" ++ b32Encode b ++ str "." ++ stem, err) := by
  have hq : str "q--" = [113, 45, 45] := by decide
  unfold UntieHostname
  simp only [Cut_label label stem hdot]
  have hp : (str "q--").isPrefixOf (str "q--" ++ label) = true := by
    rw [List.isPrefixOf_iff_prefix]
    exact List.prefix_append _ _
  have hd : (str "q--" ++ label).drop 3 = label := by
    rw [hq]
    rfl
  simp only [hp, not_true_eq_false, if_false, hd]

/-- C20 (as amended). For a hostname `q--<label>.<stem>` whose payload has
version 1 and a counter octet with current hop equal to total hops,
`UntieHostname` returns, with `ErrNoKnotToUntie` and no knot, the hostname
`q--<base32>.<stem>` of the payload with the current-hop nibble reset to 0
(when it has at most 253 octets); the `q--` label is kept, the hostname is not
`.<stem>`, and it is the name the TLS sniffer writes back. -/
theorem untieHostname_terminal (env : Env) (label stem : Str) (f : Byte) (payload : Bytes)
    (c : Byte) (rest : Bytes) (hdot : (46 : Byte) ∉ label)
    (hdec : b32Decode label = .ok (f :: payload))
    (hver : f.val &&& 0b00111111 = Version1)
    (hread : (if f.val >>> 6 = Deflate then env.inflate payload else some payload)
      = some (c :: rest))
    (hc : c.val >>> 4 = c.val &&& 0b00001111)
    (hlen : (str "q--" ++ b32Encode (f :: (if f.val >>> 6 = Deflate
        then env.deflate (byteOf (c.val &&& 0b00001111) :: rest)
        else byteOf (c.val &&& 0b00001111) :: rest)) ++ str "." ++ stem).length ≤ 253) :
    UntieHostname env (str "q--" ++ label ++ str "." ++ stem)
      = .value (none,
          str "q--" ++ b32Encode (f :: (if f.val >>> 6 = Deflate
            then env.deflate (byteOf (c.val &&& 0b00001111) :: rest)
            else byteOf (c.val &&& 0b00001111) :: rest)) ++ str "." ++ stem,
          some .noKnotToUntie) ∧
    rewrittenServerName env (str "q--" ++ label ++ str "." ++ stem)
      = .value (some (str "q--" ++ b32Encode (f :: (if f.val >>> 6 = Deflate
            then env.deflate (byteOf (c.val &&& 0b00001111) :: rest)
            else byteOf (c.val &&& 0b00001111) :: rest)) ++ str "." ++ stem)) ∧
    str "q--" ++ b32Encode (f :: (if f.val >>> 6 = Deflate
            then env.deflate (byteOf (c.val &&& 0b00001111) :: rest)
            else byteOf (c.val &&& 0b00001111) :: rest)) ++ str "." ++ stem
      ≠ str "." ++ stem := by
  have hu : UntieHostname env (str "q--" ++ label ++ str "." ++ stem)
      = .value (none,
          str "q--" ++ b32Encode (f :: (if f.val >>> 6 = Deflate
            then env.deflate (byteOf (c.val &&& 0b00001111) :: rest)
            else byteOf (c.val &&& 0b00001111) :: rest)) ++ str "." ++ stem,
          some .noKnotToUntie) := by
    rw [untieHostname_label env label stem hdot, hdec]
    simp only [untie_terminal env stem f payload c rest hver hread hc]
    rw [if_neg (by omega)]
  refine ⟨hu, ?_, ?_⟩
  · unfold rewrittenServerName
    rw [hu]
    simp
  · have hq : str "q--" = [113, 45, 45] := by decide
    have hd : str "." = [46] := by decide
    rw [hq, hd]
    intro h
    simp only [List.cons_append, List.nil_append, List.cons.injEq] at h
    exact absurd h.1 (by decide)

theorem untieHostname_terminal_witness :
    UntieHostname (dictEnv []) (str "q--" ++ str "aeiqccqaaaasb6y" ++ str "." ++ str "a.test")
      = .value (none,
          str "q--" ++ b32Encode (0x01 :: (if (0x01 : Byte).val >>> 6 = Deflate
            then (dictEnv []).deflate (byteOf ((0x11 : Byte).val &&& 0b00001111)
              :: [0x01, 10, 0, 0, 1, 0x20, 0xfb])
            else byteOf ((0x11 : Byte).val &&& 0b00001111) :: [0x01, 10, 0, 0, 1, 0x20, 0xfb]))
            ++ str "." ++ str "a.test",
          some .noKnotToUntie) ∧
    rewrittenServerName (dictEnv [])
        (str "q--" ++ str "aeiqccqaaaasb6y" ++ str "." ++ str "a.test")
      = .value (some (str "q--" ++ b32Encode (0x01 :: (if (0x01 : Byte).val >>> 6 = Deflate
            then (dictEnv []).deflate (byteOf ((0x11 : Byte).val &&& 0b00001111)
              :: [0x01, 10, 0, 0, 1, 0x20, 0xfb])
            else byteOf ((0x11 : Byte).val &&& 0b00001111) :: [0x01, 10, 0, 0, 1, 0x20, 0xfb]))
            ++ str "." ++ str "a.test")) ∧
    str "q--" ++ b32Encode (0x01 :: (if (0x01 : Byte).val >>> 6 = Deflate
            then (dictEnv []).deflate (byteOf ((0x11 : Byte).val &&& 0b00001111)
              :: [0x01, 10, 0, 0, 1, 0x20, 0xfb])
            else byteOf ((0x11 : Byte).val &&& 0b00001111) :: [0x01, 10, 0, 0, 1, 0x20, 0xfb]))
            ++ str "." ++ str "a.test"
      ≠ str "." ++ str "a.test" :=
  untieHostname_terminal (dictEnv []) (str "aeiqccqaaaasb6y") (str "a.test") 0x01
    [0x11, 0x01, 10, 0, 0, 1, 0x20, 0xfb] 0x11 [0x01, 10, 0, 0, 1, 0x20, 0xfb]
    (by decide) (by decide) (by decide) (by decide) (by decide) (by decide)

/-- C20 (as stated) fails: the chain without knots ties under the stem
`example` to `q--aeaa.example`, whose payload `01 00` is at the terminal state;
`UntieHostname` returns that same hostname with `ErrNoKnotToUntie`, the TLS
sniffer writes it back, and it is not `.example`. -/
theorem untieHostname_terminal_counterexample :
    TieChainToHostname (dictEnv []) chainEmpty (str "example")
      = .value (.ok (str "q--aeaa.example")) ∧
    UntieHostname (dictEnv []) (str "q--aeaa.example")
      = .value (none, str "q--aeaa.example", some .noKnotToUntie) ∧
    rewrittenServerName (dictEnv []) (str "q--aeaa.example")
      = .value (some (str "q--aeaa.example")) ∧
    str "q--aeaa.example" ≠ str "." ++ str "example" := by
  decide

/-! ### Malformed payloads -/

/-- C15 (the code departs from it). On a raw version-1 payload whose counter
octet has current hop different from total hops and whose tag octet is none of
`0x01`, `0x04`, `0x03`, `0xa1`, `Untie` faults: no case of the `switch` sets
the knot or the error, and `Length` is called on the nil knot. -/
theorem untie_unknown_tag_faults (env : Env) (stem : Str) (f c tag : Byte) (rest : Bytes)
    (hver : f.val &&& 0b00111111 = Version1) (hraw : f.val >>> 6 = NotCompressed)
    (hc : c.val >>> 4 ≠ c.val &&& 0b00001111)
    (htag : tag.val ≠ IPv4 ∧ tag.val ≠ IPv6 ∧ tag.val ≠ DomainName ∧ tag.val ≠ ReferDomain) :
    Untie env (f :: c :: tag :: rest) stem = .panic := by
  have hnd : ¬ f.val >>> 6 = Deflate := by
    rw [hraw]
    decide
  have hk : decodeKnot env tag.val rest stem = .value (none, none) := by
    unfold decodeKnot
    rw [if_neg htag.1, if_neg htag.2.1, if_neg htag.2.2.1, if_neg htag.2.2.2]
  unfold Untie
  simp only [hver, ne_eq, not_true_eq_false, if_false, if_neg hnd, if_neg hc, hk]

theorem untie_unknown_tag_faults_witness :
    Untie (dictEnv []) [0x01, 0x01, 0x02, 10, 0, 0, 1, 0x20, 0xfb] (str "a.test") = .panic :=
  untie_unknown_tag_faults (dictEnv []) (str "a.test") 0x01 0x01 0x02 [10, 0, 0, 1, 0x20, 0xfb]
    (by decide) (by decide) (by decide) (by decide)

/-- C16 (the code departs from it). `UntieHostname` faults, instead of
returning an error, on `q--.example` (empty payload), on a payload of a framing
octet alone, on one that ends after the counter octet, on an IPv4 or IPv6 knot
with a short body, on a Domain tag without a body and on an unknown tag. -/
theorem untieHostname_faults (env : Env) :
    UntieHostname env (str "q--.example") = .panic ∧
    b32Decode (str "ae") = .ok [0x01] ∧
    UntieHostname env (str "q--ae.example") = .panic ∧
    b32Decode (str "aeaq") = .ok [0x01, 0x01] ∧
    UntieHostname env (str "q--aeaq.example") = .panic ∧
    b32Decode (str "aeaqccq") = .ok [0x01, 0x01, 0x01, 10] ∧
    UntieHostname env (str "q--aeaqccq.example") = .panic ∧
    b32Decode (str "aeaqiaa") = .ok [0x01, 0x01, 0x04, 0] ∧
    UntieHostname env (str "q--aeaqiaa.example") = .panic ∧
    b32Decode (str "aeaqg") = .ok [0x01, 0x01, 0x03] ∧
    UntieHostname env (str "q--aeaqg.example") = .panic ∧
    b32Decode (str "aeaqeaaa") = .ok [0x01, 0x01, 0x02, 0, 0] ∧
    UntieHostname env (str "q--aeaqeaaa.example") = .panic :=
  ⟨rfl, by decide, rfl, by decide, rfl, by decide, rfl, by decide, rfl, by decide, rfl,
    by decide, rfl⟩

/-- C13 (the code departs from it). For a hostname whose label is the base32
form of a raw version-1 payload, of at most 253 octets, on which
`UntieHostname` peels a knot: the returned hostname is strictly shorter than
the hostname given, since its payload has lost the counter octet. -/
theorem untieHostname_peel_shortens (env : Env) (stem : Str) (f c : Byte) (k : Knot)
    (tail : Bytes) (hver : f.val &&& 0b00111111 = Version1)
    (hraw : f.val >>> 6 = NotCompressed) (hc : c.val >>> 4 ≠ c.val &&& 0b00001111)
    (henc : k.encodable) (hd : k.direct)
    (hlen : (str "q--" ++ b32Encode (f :: c :: byteOf k.Type :: (k.wire ++ tail))
      ++ str "." ++ stem).length ≤ 253) :
    ∃ newHost,
      UntieHostname env
          (str "q--" ++ b32Encode (f :: c :: byteOf k.Type :: (k.wire ++ tail)) ++ str "." ++ stem)
        = .value (some (k.decoded stem), newHost, none) ∧
      newHost = str "q--" ++ b32Encode (f :: ((tail ++ [byteOf k.Type]) ++ k.wire))
        ++ str "." ++ stem ∧
      newHost.length
        < (str "q--" ++ b32Encode (f :: c :: byteOf k.Type :: (k.wire ++ tail))
            ++ str "." ++ stem).length := by
  have hnd : ¬ f.val >>> 6 = Deflate := by
    rw [hraw]
    decide
  have hu := untie_knot env stem f (c :: byteOf k.Type :: (k.wire ++ tail)) c k tail hver
    (by rw [if_neg hnd]) hc henc hd
  rw [if_neg hnd] at hu
  have hlt : (str "q--" ++ b32Encode (f :: ((tail ++ [byteOf k.Type]) ++ k.wire))
        ++ str "." ++ stem).length
      < (str "q--" ++ b32Encode (f :: c :: byteOf k.Type :: (k.wire ++ tail))
            ++ str "." ++ stem).length := by
    rw [b32_host_length, b32_host_length]
    simp only [List.length_cons, List.length_append, List.length_nil]
    omega
  refine ⟨_, ?_, rfl, hlt⟩
  rw [untieHostname_tied, hu]
  simp only
  rw [if_neg (by omega)]

theorem untieHostname_peel_shortens_witness :
    ∃ newHost,
      UntieHostname (dictEnv [])
          (str "q--" ++ b32Encode (0x01 :: 0x01 :: byteOf (Knot.ip ⟨[10, 0, 0, 1], 8443⟩).Type
            :: ((Knot.ip ⟨[10, 0, 0, 1], 8443⟩).wire ++ [])) ++ str "." ++ str "a.test")
        = .value (some ((Knot.ip ⟨[10, 0, 0, 1], 8443⟩).decoded (str "a.test")), newHost, none) ∧
      newHost = str "q--" ++ b32Encode (0x01 :: (([] ++ [byteOf (Knot.ip ⟨[10, 0, 0, 1], 8443⟩).Type])
          ++ (Knot.ip ⟨[10, 0, 0, 1], 8443⟩).wire)) ++ str "." ++ str "a.test" ∧
      newHost.length
        < (str "q--" ++ b32Encode (0x01 :: 0x01 :: byteOf (Knot.ip ⟨[10, 0, 0, 1], 8443⟩).Type
            :: ((Knot.ip ⟨[10, 0, 0, 1], 8443⟩).wire ++ [])) ++ str "." ++ str "a.test").length :=
  untieHostname_peel_shortens (dictEnv []) (str "a.test") 0x01 0x01
    (.ip ⟨[10, 0, 0, 1], 8443⟩) [] (by decide) (by decide) (by decide) (by decide) (by decide)
    (by decide)

/-! ### The dispatcher -/

/-- C17. With a next knot `k` and no error from the sniffer, `Handle` dials
`k` exactly when `EnableRedir` is set and `IsPortAllowed(k.Port())` holds; with
redirection disabled or the port not allowed it closes the connection without
any outbound dial; and whenever `Handle` dials a knot, that knot is the
sniffer's next knot, redirection is enabled and its port is allowed. -/
theorem handle_redirect_gate (cfg : routerConf) (proto : Str) (k : Knot) :
    (Handle cfg proto (some k) none = .dialKnot k ↔
      cfg.EnableRedir = true ∧ IsPortAllowed cfg k.Port = true) ∧
    (cfg.EnableRedir = false → Handle cfg proto (some k) none = .redirDisabled k) ∧
    (cfg.EnableRedir = true → IsPortAllowed cfg k.Port = false →
      Handle cfg proto (some k) none = .portNotAllowed k) ∧
    ((cfg.EnableRedir = false ∨ IsPortAllowed cfg k.Port = false) →
      (Handle cfg proto (some k) none).dials = false) ∧
    (∀ nextKnot err k1, Handle cfg proto nextKnot err = .dialKnot k1 →
      nextKnot = some k1 ∧ err = none ∧ cfg.EnableRedir = true ∧
        IsPortAllowed cfg k1.Port = true) := by
  have hfin : ∀ k1, finalBackend cfg proto ≠ .dialKnot k1 := by
    intro k1
    unfold finalBackend
    simp only
    split_ifs <;> simp
  refine ⟨?_, ?_, ?_, ?_, ?_⟩
  · cases hr : cfg.EnableRedir <;> cases hp : IsPortAllowed cfg k.Port <;>
      simp [Handle, hr, hp]
  · intro hr
    simp [Handle, hr]
  · intro hr hp
    simp [Handle, hr, hp]
  · rintro (hr | hp)
    · simp [Handle, hr, Dispatch.dials]
    · cases hr : cfg.EnableRedir <;> simp [Handle, hr, hp, Dispatch.dials]
  · intro nextKnot err k1 h
    cases err with
    | some e =>
      cases e <;> simp only [Handle] at h <;> first | exact absurd h (hfin k1) | cases h
    | none =>
      cases nextKnot with
      | none =>
        simp only [Handle] at h
        exact absurd h (hfin k1)
      | some k0 =>
        cases hr : cfg.EnableRedir <;> cases hp : IsPortAllowed cfg k0.Port <;>
          simp [Handle, hr, hp] at h
        subst h
        exact ⟨rfl, rfl, rfl, hp⟩

theorem handle_redirect_gate_witness :
    Handle (BuildPortmap { AllowPorts := str "80", EnableRedir := true }).1 (str "http")
        (some knotLoopback) none = .portNotAllowed knotLoopback ∧
    (Handle (BuildPortmap { AllowPorts := str "80", EnableRedir := true }).1 (str "http")
        (some knotLoopback) none).dials = false ∧
    Handle (BuildPortmap { AllowPorts := str "9000", EnableRedir := true }).1 (str "http")
        (some knotLoopback) none = .dialKnot knotLoopback :=
  ⟨(handle_redirect_gate (BuildPortmap { AllowPorts := str "80", EnableRedir := true }).1
      (str "http") knotLoopback).2.2.1 (by decide) (by decide),
    (handle_redirect_gate (BuildPortmap { AllowPorts := str "80", EnableRedir := true }).1
      (str "http") knotLoopback).2.2.2.1 (Or.inr (by decide)),
    (handle_redirect_gate (BuildPortmap { AllowPorts := str "9000", EnableRedir := true }).1
      (str "http") knotLoopback).1.2 ⟨by decide, by decide⟩⟩

/-! ### Dialling a Domain knot -/

/-- C18 (the code departs from it). For a Domain knot with resolved addresses,
when the dial of the first address fails `DialContext` returns at once with no
connection and no error, having dialled nothing else; and when the knot has one
resolved address and its dial succeeds, `DialContext` goes on to dial the host
name and returns the outcome of that dial. -/
theorem dialContext_inverted_check (env : Env) (dial : Str → Str → Except DialErr Conn)
    (d : Domain) (a : IPAddr) (rest : List IPAddr) (network : Str)
    (hips : d.ips = some (a :: rest)) :
    (∀ e, dial network (JoinHostPort (a.String env) (FormatUint d.Port.val)) = .error e →
      Domain.DialContext env dial d network
        = { dialled := [JoinHostPort (a.String env) (FormatUint d.Port.val)],
            conn := none, err := none }) ∧
    (∀ c, dial network (JoinHostPort (a.String env) (FormatUint d.Port.val)) = .ok c →
      rest = [] →
      (Domain.DialContext env dial d network).dialled
        = [JoinHostPort (a.String env) (FormatUint d.Port.val),
           JoinHostPort d.Addr (FormatUint d.Port.val)] ∧
      (Domain.DialContext env dial d network).conn
        = (dial network (JoinHostPort d.Addr (FormatUint d.Port.val))).toOption) := by
  constructor
  · intro e he
    simp [Domain.DialContext, hips, dialIPs, he]
  · intro c hc hrest
    subst hrest
    cases hn : dial network (JoinHostPort d.Addr (FormatUint d.Port.val)) <;>
      simp [Domain.DialContext, hips, dialIPs, hc, hn, Except.toOption]

theorem dialContext_inverted_check_witness :
    Domain.DialContext (dictEnv []) dialNone domainResolved (str "tcp")
      = { dialled := [str "192.0.2.1:0"],
          conn := none, err := none } :=
  (dialContext_inverted_check (dictEnv []) dialNone domainResolved _ [] (str "tcp") rfl).1
    (.failed (str "192.0.2.1:0")) (by decide)


/-! ### The refer shorthand in the payload -/

theorem referWire_eq (env : Env) (stem : Str) (k : Knot) :
    (byteOf (if refersToStem env stem k then
        (match k with
         | .domain d => Knot.refer d
         | other => other) else k).Type ::
      (if refersToStem env stem k then
        (match k with
         | .domain d => Knot.refer d
         | other => other) else k).wire) = referWire stem k := by
  cases k with
  | ip k =>
    have h : refersToStem env stem (.ip k) = false := by
      cases hr : refersToStem env stem (.ip k)
      · rfl
      · obtain ⟨d, hd, _⟩ := (refersToStem_iff env stem _).1 hr
        cases hd
    simp [h, referWire]
  | domain d =>
    by_cases hd : d.Addr = stem
    · have h : refersToStem env stem (.domain d) = true :=
        (refersToStem_iff env stem _).2 ⟨d, rfl, hd⟩
      simp [h, referWire, hd, Knot.Type, Knot.wire]
    · have h : refersToStem env stem (.domain d) = false := by
        cases hr : refersToStem env stem (.domain d)
        · rfl
        · obtain ⟨d1, hd1, hd2⟩ := (refersToStem_iff env stem _).1 hr
          cases hd1
          exact absurd hd2 hd
      simp [h, referWire, hd, Knot.Type]
  | refer d =>
    have h : refersToStem env stem (.refer d) = false := by
      cases hr : refersToStem env stem (.refer d)
      · rfl
      · obtain ⟨d1, hd1, _⟩ := (refersToStem_iff env stem _).1 hr
        cases hd1
    simp [h, referWire]

/-- C19 (as amended). The chain that `TieChainToHostname` encodes holds no
Domain knot whose host is the stem: with at most 15 knots, all encodable, the
buffer `TieChain` fills for it is the counter octet followed, for each knot of
the input chain in order, by tag `0xa1` and the two port octets when the knot
is a Domain knot that names the stem, and by tag and variant body otherwise;
stored raw, the payload is the framing octet and this buffer. -/
theorem tieChain_refer_payload (env : Env) (chain : KnotChain) (stem : Str)
    (hn : chain.Knots.length ≤ 15)
    (henc : ∀ k ∈ (tryRefer env chain stem).Knots, k.encodable) :
    (∀ k ∈ (tryRefer env chain stem).Knots, ∀ d, k = .domain d → d.Addr ≠ stem) ∧
    writeKnots [byteOf (tryRefer env chain stem).Knots.length] (tryRefer env chain stem).Knots
      = .value (byteOf chain.Knots.length :: chain.Knots.flatMap (referWire stem)) ∧
    ((env.deflate (byteOf chain.Knots.length :: chain.Knots.flatMap (referWire stem))).length
        ≥ (byteOf chain.Knots.length :: chain.Knots.flatMap (referWire stem)).length →
      TieChain env (tryRefer env chain stem)
        = .value (.ok (chain.Version :: byteOf chain.Knots.length
            :: chain.Knots.flatMap (referWire stem)))) := by
  obtain ⟨hver, hkn⟩ := tryRefer_knots env chain stem
  have hlen : (tryRefer env chain stem).Knots.length = chain.Knots.length := by
    rw [hkn, List.length_map]
  have hbody : writeKnots [byteOf (tryRefer env chain stem).Knots.length]
      (tryRefer env chain stem).Knots
      = .value (byteOf chain.Knots.length :: chain.Knots.flatMap (referWire stem)) := by
    rw [writeKnots_wire _ henc, hlen, hkn]
    simp only [List.singleton_append, List.flatMap_map, referWire_eq]
  refine ⟨?_, hbody, ?_⟩
  · intro k hk d hkd hd
    rw [hkn, List.mem_map] at hk
    obtain ⟨k0, _, hk0⟩ := hk
    subst hkd
    by_cases hr : refersToStem env stem k0 = true
    · rw [if_pos hr] at hk0
      obtain ⟨d0, rfl, _⟩ := (refersToStem_iff env stem _).1 hr
      cases hk0
    · rw [if_neg hr] at hk0
      subst hk0
      exact hr ((refersToStem_iff env stem _).2 ⟨d, rfl, hd⟩)
  · intro hc
    rw [tieChain_of_body env _ _ (by omega) hbody, if_pos hc, hver]

theorem tieChain_refer_payload_witness :
    (∀ k ∈ (tryRefer (dictEnv []) chainWww (str "foo.test")).Knots,
      ∀ d, k = .domain d → d.Addr ≠ str "foo.test") ∧
    writeKnots [byteOf (tryRefer (dictEnv []) chainWww (str "foo.test")).Knots.length]
        (tryRefer (dictEnv []) chainWww (str "foo.test")).Knots
      = .value (byteOf chainWww.Knots.length
          :: chainWww.Knots.flatMap (referWire (str "foo.test"))) ∧
    (((dictEnv []).deflate (byteOf chainWww.Knots.length
          :: chainWww.Knots.flatMap (referWire (str "foo.test")))).length
        ≥ (byteOf chainWww.Knots.length
          :: chainWww.Knots.flatMap (referWire (str "foo.test"))).length →
      TieChain (dictEnv []) (tryRefer (dictEnv []) chainWww (str "foo.test"))
        = .value (.ok (chainWww.Version :: byteOf chainWww.Knots.length
            :: chainWww.Knots.flatMap (referWire (str "foo.test"))))) :=
  tieChain_refer_payload (dictEnv []) chainWww (str "foo.test") (by decide) (by decide)

/-- C19 (as stated) fails: the chain `foo.test:443`, `www.foo.test:443` has a
Domain knot whose host is the stem `foo.test`, it ties under that stem, and the
raw payload it encodes contains the octets of `foo.test`, inside the host of
the second knot. -/
theorem refer_payload_counterexample :
    (Knot.domain { Addr := str "foo.test", IPort := 443 }) ∈ chainWww.Knots ∧
    TieChainToHostname (dictEnv []) chainWww (str "foo.test")
      = .value (.ok (str "q--aebkcan3amgho53xfztg63zoorsxg5abxm.foo.test")) ∧
    TieChain (dictEnv []) (tryRefer (dictEnv []) chainWww (str "foo.test"))
      = .value (.ok ([0x01, 0x02, 0xa1, 0x01, 0xbb, 0x03, 12] ++ str "www.foo.test"
          ++ [0x01, 0xbb])) ∧
    occursIn (str "foo.test")
      ([0x01, 0x02, 0xa1, 0x01, 0xbb, 0x03, 12] ++ str "www.foo.test" ++ [0x01, 0xbb]) = true := by
  decide

/-! ### The knot decoders -/

/-- C21. Decoding undoes encoding for every knot variant: an IP knot of 4
octets through `DecodeIPv4`, one of 16 octets through `DecodeIPv6`, a Domain
knot with a host of at most 255 octets and a non-zero declared port through
`DecodeDomain` (host and declared port come back), a Refer knot through
`DecodeRefer` (the stem as host, the declared port); in each encoding the last
two octets are the port, high octet first. -/
theorem decode_encode_knots (env : Env) :
    (∀ k : IP, k.Addr.length = 4 →
      ∃ e, k.Encode = .value e ∧ DecodeIPv4 e = .ok k ∧
        e.drop (e.length - 2) = [byteOf (k.IPort.val / 256), byteOf (k.IPort.val % 256)]) ∧
    (∀ k : IP, k.Addr.length = 16 →
      ∃ e, k.Encode = .value e ∧ DecodeIPv6 e = .ok k ∧
        e.drop (e.length - 2) = [byteOf (k.IPort.val / 256), byteOf (k.IPort.val % 256)]) ∧
    (∀ d : Domain, d.Addr.length ≤ 255 → d.IPort ≠ 0 →
      ∃ e d1, d.Encode = .value e ∧ DecodeDomain env e = .value (.ok d1) ∧
        d1.Addr = d.Addr ∧ d1.IPort = d.IPort ∧
        e.drop (e.length - 2) = [byteOf (d.IPort.val / 256), byteOf (d.IPort.val % 256)]) ∧
    (∀ (r : Domain) (s : Str),
      ∃ e r1, Refer.Encode r = .value e ∧ DecodeRefer e s = .ok r1 ∧
        r1.Addr = s ∧ r1.IPort = r.IPort ∧
        e.drop (e.length - 2) = [byteOf (r.IPort.val / 256), byteOf (r.IPort.val % 256)]) := by
  refine ⟨?_, ?_, ?_, ?_⟩
  · intro k hk
    have he := encode_of_encodable (.ip k) (Or.inl hk)
    refine ⟨_, he, DecodeIPv4_wire k.Addr k.IPort hk, ?_⟩
    simp only [Knot.wire, List.length_append, List.length_cons, List.length_nil]
    exact List.drop_left' (by omega)
  · intro k hk
    have he := encode_of_encodable (.ip k) (Or.inr hk)
    refine ⟨_, he, DecodeIPv6_wire k.Addr k.IPort hk, ?_⟩
    simp only [Knot.wire, List.length_append, List.length_cons, List.length_nil]
    exact List.drop_left' (by omega)
  · intro d hd hp
    have he := encode_of_encodable (.domain d) hd
    have hdec := DecodeDomain_wire env d.Addr d.IPort [] hd hp
    rw [List.append_nil] at hdec
    refine ⟨_, _, he, hdec, rfl, rfl, ?_⟩
    simp only [Knot.wire, List.length_append, List.length_cons, List.length_nil]
    exact List.drop_left' (by simp)
  · intro r s
    have he := encode_of_encodable (.refer r) trivial
    have hdec := DecodeRefer_wire r.IPort [] s
    rw [List.append_nil] at hdec
    exact ⟨_, _, he, hdec, rfl, rfl, rfl⟩

theorem decode_encode_knots_witness :
    (∃ e, (IP.mk [10, 0, 0, 1] 8443).Encode = .value e ∧
      DecodeIPv4 e = .ok (IP.mk [10, 0, 0, 1] 8443) ∧
      e.drop (e.length - 2) = [byteOf ((8443 : Port).val / 256), byteOf ((8443 : Port).val % 256)]) ∧
    (∃ e r1, Refer.Encode { Addr := str "foo.test", IPort := 443 } = .value e ∧
      DecodeRefer e (str "a.test") = .ok r1 ∧ r1.Addr = str "a.test" ∧ r1.IPort = 443 ∧
      e.drop (e.length - 2) = [byteOf ((443 : Port).val / 256), byteOf ((443 : Port).val % 256)]) :=
  ⟨(decode_encode_knots (dictEnv [])).1 (IP.mk [10, 0, 0, 1] 8443) (by decide),
    (decode_encode_knots (dictEnv [])).2.2.2 { Addr := str "foo.test", IPort := 443 }
      (str "a.test")⟩

/-- C24. For every encodable knot, `Length()` is the number of octets of
`Encode()`: 6 for an IPv4 knot, 18 for an IPv6 knot, the host length plus 3 for
a Domain knot, 2 for a Refer knot. -/
theorem length_eq_encode_length (k : Knot) (h : k.encodable) :
    ∃ e, k.Encode = .value e ∧ e.length = k.Length ∧
      (k.Type = IPv4 → k.Length = 6) ∧ (k.Type = IPv6 → k.Length = 18) ∧
      (∀ d, k = .domain d → k.Length = d.Addr.length + 3) ∧
      (∀ d, k = .refer d → k.Length = 2) := by
  refine ⟨_, encode_of_encodable k h, ?_, ?_, ?_, ?_, ?_⟩
  · cases k with
    | ip k => simp [Knot.wire, Knot.Length, IP.Length]
    | domain d => simp [Knot.wire, Knot.Length, Domain.Length]
    | refer d => simp [Knot.wire, Knot.Length]
  · cases k with
    | ip k =>
      simp only [Knot.encodable] at h
      rcases h with h | h <;> simp [Knot.Type, IP.Type, Knot.Length, IP.Length, h, IPv4len,
        IPv6len, IPv4, IPv6]
    | domain d => simp [Knot.Type, DomainName, IPv4]
    | refer d => simp [Knot.Type, ReferDomain, IPv4]
  · cases k with
    | ip k =>
      simp only [Knot.encodable] at h
      rcases h with h | h <;> simp [Knot.Type, IP.Type, Knot.Length, IP.Length, h, IPv4len,
        IPv6len, IPv4, IPv6]
    | domain d => simp [Knot.Type, DomainName, IPv6]
    | refer d => simp [Knot.Type, ReferDomain, IPv6]
  · rintro d rfl
    rfl
  · rintro d rfl
    rfl

theorem length_eq_encode_length_witness :
    ∃ e, (Knot.domain { Addr := str "foo.test", IPort := 443 }).Encode = .value e ∧
      e.length = (Knot.domain { Addr := str "foo.test", IPort := 443 }).Length ∧
      ((Knot.domain { Addr := str "foo.test", IPort := 443 }).Type = IPv4 →
        (Knot.domain { Addr := str "foo.test", IPort := 443 }).Length = 6) ∧
      ((Knot.domain { Addr := str "foo.test", IPort := 443 }).Type = IPv6 →
        (Knot.domain { Addr := str "foo.test", IPort := 443 }).Length = 18) ∧
      (∀ d, Knot.domain { Addr := str "foo.test", IPort := 443 } = .domain d →
        (Knot.domain { Addr := str "foo.test", IPort := 443 }).Length = d.Addr.length + 3) ∧
      (∀ d, Knot.domain { Addr := str "foo.test", IPort := 443 } = .refer d →
        (Knot.domain { Addr := str "foo.test", IPort := 443 }).Length = 2) :=
  length_eq_encode_length (.domain { Addr := str "foo.test", IPort := 443 }) (by decide)

/-- C22 (the code departs from it). `DecodeIPv4`, `DecodeIPv6` and
`DecodeRefer` return an error exactly on slices shorter than 6, 18 and 2
octets, and `DecodeDomain` returns the insufficient-length error on a slice
with a length octet `N` and fewer than `N + 3` octets; but on the empty slice
`DecodeDomain` faults. -/
theorem decoders_on_short_slices (env : Env) :
    (∀ b, (∃ err, DecodeIPv4 b = .error err) ↔ b.length < 6) ∧
    (∀ b, (∃ err, DecodeIPv6 b = .error err) ↔ b.length < 18) ∧
    (∀ b s, (∃ err, DecodeRefer b s = .error err) ↔ b.length < 2) ∧
    (∀ (n : Byte) (rest : Bytes), (n :: rest).length < n.val + 3 →
      DecodeDomain env (n :: rest) = .value (.error .domainParse)) ∧
    DecodeDomain env [] = .panic := by
  refine ⟨?_, ?_, ?_, ?_, rfl⟩
  · intro b
    unfold DecodeIPv4
    by_cases h : b.length < IPv4len + 2
    · rw [if_pos h]
      simpa [IPv4len] using h
    · rw [if_neg h]
      simpa [IPv4len] using h
  · intro b
    unfold DecodeIPv6
    by_cases h : b.length < IPv6len + 2
    · rw [if_pos h]
      simpa [IPv6len] using h
    · rw [if_neg h]
      simpa [IPv6len] using h
  · intro b s
    unfold DecodeRefer
    by_cases h : b.length < 2
    · rw [if_pos h]
      simpa using h
    · rw [if_neg h]
      simpa using h
  · intro n rest h
    simp only [DecodeDomain]
    rw [if_pos h]

/-! ### IP4P -/

/-- C25. On a 16-octet address whose octets 0..9 are
`20 01 00 00 00 00 00 00 00 00`, `lookupIP4P` returns the IPv4 address of
octets 12..15 and the port `a[10] * 256 + a[11]`; on an address that is not 16
octets long, or whose octets 0..9 are not that prefix, it returns the address
unchanged and port 0. -/
theorem lookupIP4P_spec (a : Bytes) :
    (a.length = 16 → a.take 10 = [0x20, 0x01, 0, 0, 0, 0, 0, 0, 0, 0] →
      lookupIP4P a = (netIPv4 (a.getD 12 0) (a.getD 13 0) (a.getD 14 0) (a.getD 15 0),
        portOf ((a.getD 10 0).val * 256 + (a.getD 11 0).val)) ∧
      (lookupIP4P a).2.val = (a.getD 10 0).val * 256 + (a.getD 11 0).val) ∧
    ((a.length ≠ 16 ∨ a.take 10 ≠ [0x20, 0x01, 0, 0, 0, 0, 0, 0, 0, 0]) →
      lookupIP4P a = (a, 0)) := by
  constructor
  · intro hlen hpre
    obtain ⟨a0, a1, a2, a3, a4, a5, a6, a7, a8, a9, a10, a11, a12, a13, a14, a15, rfl⟩ :
        ∃ a0 a1 a2 a3 a4 a5 a6 a7 a8 a9 a10 a11 a12 a13 a14 a15,
          a = [a0, a1, a2, a3, a4, a5, a6, a7, a8, a9, a10, a11, a12, a13, a14, a15] := by
      match a, hlen with
      | [a0, a1, a2, a3, a4, a5, a6, a7, a8, a9, a10, a11, a12, a13, a14, a15], _ =>
        exact ⟨a0, a1, a2, a3, a4, a5, a6, a7, a8, a9, a10, a11, a12, a13, a14, a15, rfl⟩
    simp only [List.take_succ_cons, List.take_zero, List.cons.injEq, and_true] at hpre
    obtain ⟨rfl, rfl, rfl, rfl, rfl, rfl, rfl, rfl, rfl, rfl⟩ := hpre
    have hport : a10.val <<< 8 + a11.val = a10.val * 256 + a11.val := by
      rw [Nat.shiftLeft_eq]
    have hl : lookupIP4P [0x20, 0x01, 0, 0, 0, 0, 0, 0, 0, 0, a10, a11, a12, a13, a14, a15]
        = (netIPv4 a12 a13 a14 a15, portOf (a10.val * 256 + a11.val)) := by
      rw [← hport]
      rfl
    refine ⟨hl, ?_⟩
    rw [hl]
    simp only [portOf, List.getD_cons_succ, List.getD_cons_zero]
    omega
  · intro h
    by_cases hlen : a.length = 16
    · obtain ⟨a0, a1, a2, a3, a4, a5, a6, a7, a8, a9, a10, a11, a12, a13, a14, a15, rfl⟩ :
          ∃ a0 a1 a2 a3 a4 a5 a6 a7 a8 a9 a10 a11 a12 a13 a14 a15,
            a = [a0, a1, a2, a3, a4, a5, a6, a7, a8, a9, a10, a11, a12, a13, a14, a15] := by
        match a, hlen with
        | [a0, a1, a2, a3, a4, a5, a6, a7, a8, a9, a10, a11, a12, a13, a14, a15], _ =>
          exact ⟨a0, a1, a2, a3, a4, a5, a6, a7, a8, a9, a10, a11, a12, a13, a14, a15, rfl⟩
      have hpre : ¬ (a0 = 0x20 ∧ a1 = 0x01 ∧ a2 = 0 ∧ a3 = 0 ∧ a4 = 0 ∧ a5 = 0 ∧ a6 = 0 ∧ a7 = 0
          ∧ a8 = 0 ∧ a9 = 0) := by
        rintro ⟨rfl, rfl, rfl, rfl, rfl, rfl, rfl, rfl, rfl, rfl⟩
        rcases h with h | h
        · exact h rfl
        · exact h rfl
      simp only [lookupIP4P, IPv6len, List.length_cons, List.length_nil, ne_eq,
        not_true_eq_false, if_false, List.getD_cons_succ, List.getD_cons_zero]
      by_cases h03 : a0 = 0x20 ∧ a1 = 0x01 ∧ a2 = 0x00 ∧ a3 = 0x00
      · rw [if_pos h03]
        by_cases h49 : a4 = 0 ∧ a5 = 0 ∧ a6 = 0 ∧ a7 = 0 ∧ a8 = 0 ∧ a9 = 0
        · exact absurd ⟨h03.1, h03.2.1, h03.2.2.1, h03.2.2.2, h49⟩ hpre
        · rw [if_pos]
          simp only [List.range, List.range.loop, List.map_cons, List.map_nil, List.any_cons,
            List.any_nil, List.getD_cons_succ, List.getD_cons_zero, Bool.or_false,
            Bool.or_eq_true, decide_eq_true_eq]
          by_contra hall
          apply h49
          simp only [not_or, not_not] at hall
          tauto
      · rw [if_neg h03]
    · simp only [lookupIP4P, IPv6len]
      rw [if_pos hlen]

theorem lookupIP4P_spec_witness :
    lookupIP4P [0x20, 0x01, 0, 0, 0, 0, 0, 0, 0, 0, 0x20, 0xfb, 192, 0, 2, 1]
      = (netIPv4 192 0 2 1, 8443) ∧
    lookupIP4P [0x20, 0x01, 0x0d, 0xb8, 0, 0, 0, 0, 0, 0, 0x20, 0xfb, 192, 0, 2, 1]
      = ([0x20, 0x01, 0x0d, 0xb8, 0, 0, 0, 0, 0, 0, 0x20, 0xfb, 192, 0, 2, 1], 0) :=
  ⟨((lookupIP4P_spec _).1 (by decide) (by decide)).1,
    (lookupIP4P_spec _).2 (Or.inr (by decide))⟩

/-! ### Descending port ranges -/

/-- C27 (the code departs from it). On the descending ranges `10-9` and
`100-20` `BuildPortmap` returns no error, since it compares the bounds as
strings; `10-9` allows no port, `100-20` allows ports 100..103 and 16..20. -/
theorem buildPortmap_accepts_descending :
    (BuildPortmap { AllowPorts := str "10-9" }).2 = none ∧
    strLt (str "9") (str "10") = false ∧
    IsPortAllowed (BuildPortmap { AllowPorts := str "10-9" }).1 9 = false ∧
    IsPortAllowed (BuildPortmap { AllowPorts := str "10-9" }).1 10 = false ∧
    (BuildPortmap { AllowPorts := str "100-20" }).2 = none ∧
    strLt (str "20") (str "100") = false ∧
    ((List.range 128).filter
        (fun p => IsPortAllowed (BuildPortmap { AllowPorts := str "100-20" }).1 (portOf p))
      = [16, 17, 18, 19, 20, 100, 101, 102, 103]) := by
  decide

/-! ### The read-ahead connection -/

theorem aheadReads_nil (ls : List Nat) : aheadReads [] ls = [] := by
  cases ls <;> simp [aheadReads]

theorem reads_ahead {R : Type} (read : R → Nat → (Bytes × Option ReadErr) × R) (br : R)
    (p : Bytes) (ls : List Nat) :
    (wrappedConn.Reads read ⟨br, p⟩ ls).1
      = aheadReads p ls ++ (brReads read br (ls.drop (aheadReads p ls).length)).1 := by
  induction ls generalizing p br with
  | nil => simp [wrappedConn.Reads, aheadReads, brReads]
  | cons n ns ih =>
    by_cases hp : p.length = 0
    · have hp2 : p = [] := List.length_eq_zero.1 hp
      subst hp2
      have := ih (read br n).2 []
      simp only [aheadReads_nil, List.length_nil, List.drop_zero, List.nil_append] at this
      simp [wrappedConn.Reads, wrappedConn.Read, aheadReads, brReads, this]
    · have hpos : p.length > 0 := by omega
      simp only [wrappedConn.Reads, wrappedConn.Read, if_pos hpos, aheadReads, if_neg hp,
        List.cons_append, List.length_cons, List.drop_succ_cons]
      by_cases hk : min n p.length = p.length
      · have hd : p.drop n = [] := by
          apply List.drop_eq_nil_of_le
          omega
        rw [if_pos hk, hk, hd]
        simp only [List.take_length]
        rw [ih br []]
        have ht : p.take n = p := List.take_of_length_le (by omega)
        rw [ht]
      · have ht : p.take (min n p.length) = p.take n := by
          rw [Nat.min_def]
          split_ifs with h
          · rfl
          · exact absurd (by rw [Nat.min_def, if_neg h]) hk
        have hd : p.drop (min n p.length) = p.drop n := by
          rw [Nat.min_def]
          split_ifs with h
          · rfl
          · exact absurd (by rw [Nat.min_def, if_neg h]) hk
        rw [if_neg hk, ht, hd]
        simp only
        rw [ih br (p.drop n)]

theorem aheadReads_flatten (p : Bytes) (ls : List Nat) :
    ((aheadReads p ls).map Prod.fst).flatten = p.take ls.sum := by
  induction ls generalizing p with
  | nil => simp [aheadReads]
  | cons n ns ih =>
    by_cases hp : p.length = 0
    · have hp2 : p = [] := List.length_eq_zero.1 hp
      subst hp2
      simp [aheadReads]
    · simp only [aheadReads, if_neg hp, List.map_cons, List.flatten_cons, ih, List.sum_cons]
      rw [List.take_add]

theorem aheadReads_exhaust (p : Bytes) (ls : List Nat)
    (h : (aheadReads p ls).length < ls.length) :
    ((aheadReads p ls).map Prod.fst).flatten = p := by
  induction ls generalizing p with
  | nil => simp at h
  | cons n ns ih =>
    by_cases hp : p.length = 0
    · have hp2 : p = [] := List.length_eq_zero.1 hp
      subst hp2
      simp [aheadReads]
    · simp only [aheadReads, if_neg hp, List.length_cons, Nat.add_lt_add_iff_right] at h
      simp only [aheadReads, if_neg hp, List.map_cons, List.flatten_cons, ih _ h,
        List.take_append_drop]

theorem aheadReads_each (p : Bytes) (ls : List Nat) :
    ∀ i (hi : i < (aheadReads p ls).length),
      ∃ n, ls[i]? = some n ∧
        (aheadReads p ls)[i] = ((p.drop (ls.take i).sum).take n, none) ∧
        ((aheadReads p ls)[i]).1.length = min n (p.length - (ls.take i).sum) ∧
        (ls.take i).sum < p.length := by
  induction ls generalizing p with
  | nil =>
    intro i hi
    simp [aheadReads] at hi
  | cons n ns ih =>
    intro i hi
    by_cases hp : p.length = 0
    · simp [aheadReads, hp] at hi
    · cases i with
      | zero =>
        refine ⟨n, by simp, ?_, ?_, ?_⟩
        · simp [aheadReads, hp]
        · simp [aheadReads, hp]
        · simp only [List.take_zero, List.sum_nil]
          omega
      | succ j =>
        have hj : j < (aheadReads (p.drop n) ns).length := by
          simpa [aheadReads, hp] using hi
        obtain ⟨m, hm, he, hl, hs⟩ := ih (p.drop n) j hj
        refine ⟨m, by simpa using hm, ?_, ?_, ?_⟩
        · simp only [aheadReads, if_neg hp, List.getElem_cons_succ, he, List.take_succ_cons,
            List.sum_cons, List.drop_drop]
        · simp only [aheadReads, if_neg hp, List.getElem_cons_succ, hl, List.take_succ_cons,
            List.sum_cons, List.length_drop]
          omega
        · simp only [List.take_succ_cons, List.sum_cons]
          rw [List.length_drop] at hs
          omega

/-- C26. For a `wrappedConn` with read-ahead octets `p` and any sequence of
`Read` calls: the calls return first what the read-ahead octets serve, each such
call giving the next `min (len buffer) remaining` octets of `p` and no error,
and then what the underlying reader returns, which is read from its initial
state and only by the calls that follow; the octets returned, concatenated in
call order, are the octets of `p` (as far as the buffers reach) followed by the
octets of the underlying reader, and all of `p` has been delivered before the
underlying reader is read. -/
theorem wrappedConn_reads {R : Type} (read : R → Nat → (Bytes × Option ReadErr) × R) (br : R)
    (p : Bytes) (ls : List Nat) :
    (wrappedConn.Reads read ⟨br, p⟩ ls).1
      = aheadReads p ls ++ (brReads read br (ls.drop (aheadReads p ls).length)).1 ∧
    ((wrappedConn.Reads read ⟨br, p⟩ ls).1.map Prod.fst).flatten
      = p.take ls.sum
        ++ ((brReads read br (ls.drop (aheadReads p ls).length)).1.map Prod.fst).flatten ∧
    ((aheadReads p ls).length < ls.length →
      ((aheadReads p ls).map Prod.fst).flatten = p ∧ p.take ls.sum = p) ∧
    (∀ i (hi : i < (aheadReads p ls).length),
      ∃ n, ls[i]? = some n ∧
        (aheadReads p ls)[i] = ((p.drop (ls.take i).sum).take n, none) ∧
        ((aheadReads p ls)[i]).1.length = min n (p.length - (ls.take i).sum) ∧
        (ls.take i).sum < p.length) := by
  refine ⟨reads_ahead read br p ls, ?_, ?_, aheadReads_each p ls⟩
  · rw [reads_ahead read br p ls, List.map_append, List.flatten_append, aheadReads_flatten]
  · intro h
    have h1 := aheadReads_exhaust p ls h
    refine ⟨h1, ?_⟩
    rw [← aheadReads_flatten, h1]

theorem wrappedConn_reads_witness :
    (wrappedConn.Reads listRead ⟨[7, 8, 9], [1, 2, 3, 4, 5]⟩ [2, 2, 2, 2, 2]).1
      = [([1, 2], none), ([3, 4], none), ([5], none), ([7, 8], none), ([9], none)] ∧
    ((wrappedConn.Reads listRead ⟨[7, 8, 9], [1, 2, 3, 4, 5]⟩ [2, 2, 2, 2, 2]).1.map
        Prod.fst).flatten
      = ([1, 2, 3, 4, 5] : Bytes).take ([2, 2, 2, 2, 2] : List Nat).sum
        ++ ((brReads listRead ([7, 8, 9] : Bytes) (([2, 2, 2, 2, 2] : List Nat).drop
              (aheadReads [1, 2, 3, 4, 5] [2, 2, 2, 2, 2]).length)).1.map Prod.fst).flatten :=
  ⟨by decide, (wrappedConn_reads listRead [7, 8, 9] [1, 2, 3, 4, 5] [2, 2, 2, 2, 2]).2.1⟩

/-! ### Port ranges in the bitmap -/

theorem Split_single (s : Str) (sep : Byte) (h : sep ∉ s) : Split s sep = [s] := by
  induction s with
  | nil => rfl
  | cons c cs ih =>
    have hc : c ≠ sep := fun e => h (e ▸ List.mem_cons_self _ _)
    simp only [Split, if_neg hc, ih (fun hm => h (List.mem_cons_of_mem _ hm))]

theorem parseDigits_le (s : Str) (n r : Nat) (hn : n ≤ 65535)
    (h : parseDigits n s = .ok r) : r ≤ 65535 := by
  induction s generalizing n with
  | nil =>
    simp only [parseDigits, Except.ok.injEq] at h
    omega
  | cons c cs ih =>
    simp only [parseDigits] at h
    split_ifs at h with h1 h2
    exact ih _ (by omega) h

theorem ParseUint_le (s : Str) (r : Nat) (h : ParseUint s = .ok r) : r ≤ 65535 := by
  unfold ParseUint at h
  split_ifs at h
  exact parseDigits_le s 0 r (by omega) h

theorem orAt_same (m : Portmap) (i : Nat) (b : Byte) :
    orAt m i b i = byteOf ((m i).val ||| b.val) := by
  simp [orAt]

theorem orAt_other (m : Portmap) (i j : Nat) (b : Byte) (h : j ≠ i) : orAt m i b j = m j := by
  simp [orAt, h]

theorem fill_range (n start : Nat) (m : Portmap) (j : Nat) :
    (List.range' start n).foldl (fun a i => orAt a i 0xff) m j
      = if start ≤ j ∧ j < start + n then byteOf ((m j).val ||| (0xff : Byte).val) else m j := by
  induction n generalizing start m with
  | zero =>
    simp only [List.range'_zero, List.foldl_nil]
    rw [if_neg (by omega)]
  | succ n ih =>
    simp only [List.range'_succ, List.foldl_cons]
    rw [ih]
    by_cases hj : j = start
    · subst hj
      rw [if_neg (by omega), if_pos (by omega), orAt_same]
    · rw [orAt_other _ _ _ _ hj]
      by_cases h1 : start + 1 ≤ j ∧ j < start + 1 + n
      · rw [if_pos h1, if_pos (by omega)]
      · rw [if_neg h1, if_neg (by omega)]

theorem bit_both : ∀ a b r : Fin 8,
    ((byteOf ((0 : Byte).val ||| (byteOf ((byteOf (0xff <<< a.val)).val
        &&& (byteOf (0xff >>> (7 - b.val))).val)).val)).val
      &&& (byteOf (1 <<< r.val)).val ≠ 0) ↔ (a.val ≤ r.val ∧ r.val ≤ b.val) := by
  decide

theorem bit_floor : ∀ a r : Fin 8,
    ((byteOf ((0 : Byte).val ||| (byteOf (0xff <<< a.val)).val)).val
      &&& (byteOf (1 <<< r.val)).val ≠ 0) ↔ a.val ≤ r.val := by
  decide

theorem bit_ceil : ∀ b r : Fin 8,
    ((byteOf ((0 : Byte).val ||| (byteOf (0xff >>> (7 - b.val))).val)).val
      &&& (byteOf (1 <<< r.val)).val ≠ 0) ↔ r.val ≤ b.val := by
  decide

theorem bit_full : ∀ r : Fin 8,
    (byteOf ((0 : Byte).val ||| (0xff : Byte).val)).val &&& (byteOf (1 <<< r.val)).val ≠ 0 := by
  decide

theorem bit_zero : ∀ r : Fin 8, ¬ ((0 : Byte).val &&& (byteOf (1 <<< r.val)).val ≠ 0) := by
  decide

/-- The bitmap a range entry with bounds `lo <= hi` leaves on the cleared
array: bit `p % 8` of octet `p / 8` is set exactly for `lo <= p <= hi`. -/
theorem range_bits (lo hi p : Nat) (hle : lo ≤ hi) :
    ((if lo / 8 = hi / 8 then
        orAt (fun _ => 0) (hi / 8)
          (byteOf ((byteOf (0xff <<< (lo % 8))).val &&& (byteOf (0xff >>> (7 - hi % 8))).val))
      else
        (List.range' (lo / 8 + 1) (hi / 8 - (lo / 8 + 1))).foldl (fun a i => orAt a i 0xff)
          (orAt (orAt (fun _ => 0) (lo / 8) (byteOf (0xff <<< (lo % 8)))) (hi / 8)
            (byteOf (0xff >>> (7 - hi % 8))))) (p / 8)).val
      &&& (byteOf (1 <<< (p % 8))).val ≠ 0 ↔ (lo ≤ p ∧ p ≤ hi) := by
  have hl8 : lo % 8 < 8 := Nat.mod_lt _ (by decide)
  have hh8 : hi % 8 < 8 := Nat.mod_lt _ (by decide)
  have hp8 : p % 8 < 8 := Nat.mod_lt _ (by decide)
  have hz := bit_zero ⟨p % 8, hp8⟩
  by_cases hs : lo / 8 = hi / 8
  · rw [if_pos hs]
    by_cases hp : p / 8 = hi / 8
    · rw [hp, orAt_same]
      rw [bit_both ⟨lo % 8, hl8⟩ ⟨hi % 8, hh8⟩ ⟨p % 8, hp8⟩]
      simp only
      omega
    · rw [orAt_other _ _ _ _ hp]
      constructor
      · intro h
        exact absurd h hz
      · intro h
        omega
  · rw [if_neg hs, fill_range]
    by_cases hmid : lo / 8 + 1 ≤ p / 8 ∧ p / 8 < lo / 8 + 1 + (hi / 8 - (lo / 8 + 1))
    · rw [if_pos hmid, orAt_other _ _ _ _ (by omega), orAt_other _ _ _ _ (by omega)]
      constructor
      · intro _
        omega
      · intro _
        exact bit_full ⟨p % 8, hp8⟩
    · rw [if_neg hmid]
      by_cases hp : p / 8 = hi / 8
      · rw [hp, orAt_same, orAt_other _ _ _ _ (by omega)]
        rw [bit_ceil ⟨hi % 8, hh8⟩ ⟨p % 8, hp8⟩]
        simp only
        omega
      · rw [orAt_other _ _ _ _ hp]
        by_cases hq : p / 8 = lo / 8
        · rw [hq, orAt_same]
          rw [bit_floor ⟨lo % 8, hl8⟩ ⟨p % 8, hp8⟩]
          simp only
          omega
        · rw [orAt_other _ _ _ _ hq]
          constructor
          · intro h
            exact absurd h hz
          · intro h
            omega

/-- C23. For an `AllowPorts` that is one range entry (no comma, a dash that
separates two bounds parsed as `lo` and `hi`) with `lo <= hi`, on which
`BuildPortmap` returns no error: a port `p` is allowed, that is bit `p % 8` of
octet `p / 8` of the bitmap is set, exactly when `lo <= p <= hi`, whether the
range lies in one octet or spans several; the bounds are at most 65535. -/
theorem buildPortmap_range (c : routerConf) (fl ce : Str) (lo hi : Nat)
    (hcomma : (44 : Byte) ∉ c.AllowPorts)
    (hcut : Cut c.AllowPorts 45 = (fl, ce, true))
    (hlo : ParseUint (TrimSpace fl) = .ok lo) (hhi : ParseUint (TrimSpace ce) = .ok hi)
    (hle : lo ≤ hi) (hok : (BuildPortmap c).2 = none) :
    hi ≤ 65535 ∧
    ∀ p : Port,
      (IsPortAllowed (BuildPortmap c).1 p = true ↔ (lo ≤ p.val ∧ p.val ≤ hi)) ∧
      ((((BuildPortmap c).1.AllowPortmap (p.val / 8)).val &&& (byteOf (1 <<< (p.val % 8))).val ≠ 0)
        ↔ (lo ≤ p.val ∧ p.val ≤ hi)) := by
  refine ⟨ParseUint_le _ _ hhi, ?_⟩
  have hent : buildEntry (fun _ => 0) c.AllowPorts =
      if strLt (TrimSpace ce) (TrimSpace fl) then
        ((fun _ => 0), some (.invalidPortRange c.AllowPorts))
      else
        ((if lo / 8 = hi / 8 then
          orAt (fun _ => 0) (hi / 8)
            (byteOf ((byteOf (0xff <<< (lo % 8))).val &&& (byteOf (0xff >>> (7 - hi % 8))).val))
        else
          (List.range' (lo / 8 + 1) (hi / 8 - (lo / 8 + 1))).foldl (fun a i => orAt a i 0xff)
            (orAt (orAt (fun _ => 0) (lo / 8) (byteOf (0xff <<< (lo % 8)))) (hi / 8)
              (byteOf (0xff >>> (7 - hi % 8))))), none) := by
    simp only [buildEntry, hcut, not_true_eq_false, if_false, hlo, hhi]
    split_ifs <;> rfl
  have hbuild : BuildPortmap c =
      ({ c with AllowPortmap := (buildEntry (fun _ => 0) c.AllowPorts).1 },
        (buildEntry (fun _ => 0) c.AllowPorts).2) := by
    simp only [BuildPortmap, Split_single _ _ hcomma, buildEntries]
    rcases hb : buildEntry (fun _ => 0) c.AllowPorts with ⟨m1, _ | e⟩
    · simp [buildEntries]
    · simp
  have hlt : strLt (TrimSpace ce) (TrimSpace fl) = false := by
    by_contra hne
    have ht : strLt (TrimSpace ce) (TrimSpace fl) = true := by simpa using hne
    rw [hbuild, hent, if_pos ht] at hok
    cases hok
  rw [hlt] at hent
  simp only [Bool.false_eq_true, if_false] at hent
  intro p
  have hbits := range_bits lo hi p.val hle
  have hmap : (BuildPortmap c).1.AllowPortmap = (buildEntry (fun _ => 0) c.AllowPorts).1 := by
    rw [hbuild]
  rw [hent] at hmap
  constructor
  · unfold IsPortAllowed
    simp only [hmap, decide_eq_true_eq]
    exact hbits
  · rw [hmap]
    exact hbits

theorem buildPortmap_range_witness :
    (200 : Nat) ≤ 65535 ∧
    ∀ p : Port,
      (IsPortAllowed (BuildPortmap { AllowPorts := str "100-200" }).1 p = true
        ↔ (100 ≤ p.val ∧ p.val ≤ 200)) ∧
      ((((BuildPortmap { AllowPorts := str "100-200" }).1.AllowPortmap (p.val / 8)).val
          &&& (byteOf (1 <<< (p.val % 8))).val ≠ 0)
        ↔ (100 ≤ p.val ∧ p.val ≤ 200)) :=
  buildPortmap_range { AllowPorts := str "100-200" } (str "100") (str "200") 100 200
    (by decide) (by decide) (by decide) (by decide) (by decide) (by decide)

/-! ### Chain expansion -/

theorem addGroupToChain_eq (p g : List ClashProxy) : addGroupToChain p g = g.map (addHop p) := rfl

theorem hops_snoc (a : List ClashProxy) (x : ClashProxy) : hops (a ++ [x]) = addHop (hops a) x := by
  simp [hops, List.foldl_append]

theorem extend_hops (acc : List (List ClashProxy)) (g : List ClashProxy) :
    (acc.map hops).flatMap (fun p => addGroupToChain p g)
      = (acc.flatMap (fun a => g.map (fun x => a ++ [x]))).map hops := by
  rw [List.flatMap_map, List.map_flatMap]
  apply List.flatMap_congr
  intro a _
  rw [addGroupToChain_eq, List.map_map]
  apply List.map_congr_left
  intro x _
  simp [hops_snoc]

theorem fold_groups (gs : List (List ClashProxy)) (acc : List (List ClashProxy)) :
    gs.foldl (fun cps g => cps.flatMap (fun p => addGroupToChain p g)) (acc.map hops)
      = (acc.flatMap (fun a => (choices gs).map (fun c => a ++ c))).map hops := by
  induction gs generalizing acc with
  | nil => simp [choices]
  | cons g gs ih =>
    rw [List.foldl_cons, extend_hops, ih]
    congr 1
    rw [List.flatMap_assoc]
    apply List.flatMap_congr
    intro a _
    simp only [choices, List.flatMap_map, List.map_flatMap, List.map_map]
    apply List.flatMap_congr
    intro x _
    apply List.map_congr_left
    intro c _
    simp

theorem choices_length (gs : List (List ClashProxy)) :
    (choices gs).length = (gs.map List.length).prod := by
  induction gs with
  | nil => rfl
  | cons g gs ih =>
    simp only [choices, List.map_cons, List.prod_cons, ← ih]
    induction g with
    | nil => simp
    | cons x xs ihx => simp [List.flatMap_cons, ihx, Nat.add_mul, Nat.add_comm]

theorem addHop_chain (p : List ClashProxy) (x : ClashProxy)
    (h : p.Chain' (fun a b => a.Name ≠ b.Name)) :
    (addHop p x).Chain' (fun a b => a.Name ≠ b.Name) := by
  unfold addHop
  cases hl : p.getLast? with
  | none => exact List.chain'_singleton x
  | some last =>
    simp only
    split_ifs with hn
    · exact h
    · rw [List.chain'_append]
      refine ⟨h, List.chain'_singleton x, ?_⟩
      intro y hy z hz
      rw [hl] at hy
      simp only [Option.mem_def, Option.some.injEq] at hy
      simp only [List.head?_cons, Option.mem_def, Option.some.injEq] at hz
      subst hy hz
      exact fun e => hn e.symm

theorem hops_chain (c : List ClashProxy) :
    (hops c).Chain' (fun a b => a.Name ≠ b.Name) := by
  have key : ∀ (c p : List ClashProxy), p.Chain' (fun a b => a.Name ≠ b.Name) →
      (c.foldl addHop p).Chain' (fun a b => a.Name ≠ b.Name) := by
    intro c
    induction c with
    | nil => exact fun p h => h
    | cons x xs ih => exact fun p h => ih _ (addHop_chain p x h)
  exact key c [] List.chain'_nil

theorem expandLoop_error_iff (m : Str → Option (List ClashProxy)) (names : List Str)
    (acc : Option (List (List ClashProxy))) :
    (∃ err, expandLoop m acc names = .error err) ↔
      ∃ n ∈ names, m n = none ∨ m n = some [] := by
  induction names generalizing acc with
  | nil => simp [expandLoop]
  | cons n ns ih =>
    cases hm : m n with
    | none =>
      simp only [expandLoop, hm]
      constructor
      · intro _
        exact ⟨n, List.mem_cons_self _ _, Or.inl hm⟩
      · intro _
        exact ⟨_, rfl⟩
    | some g =>
      by_cases hg : g.length = 0
      · have hg2 : g = [] := List.length_eq_zero.1 hg
        simp only [expandLoop, hm, if_pos hg]
        constructor
        · intro _
          exact ⟨n, List.mem_cons_self _ _, Or.inr (by rw [hm, hg2])⟩
        · intro _
          exact ⟨_, rfl⟩
      · have hne : g ≠ [] := fun e => hg (by rw [e]; rfl)
        have hstep : ∀ a, (∃ err, expandLoop m a ns = .error err) ↔
            ∃ x ∈ n :: ns, m x = none ∨ m x = some [] := by
          intro a
          rw [ih a]
          constructor
          · rintro ⟨x, hx, h⟩
            exact ⟨x, List.mem_cons_of_mem _ hx, h⟩
          · rintro ⟨x, hx, h⟩
            rcases List.mem_cons.1 hx with rfl | hx
            · rcases h with h | h
              · rw [hm] at h
                cases h
              · rw [hm] at h
                simp only [Option.some.injEq] at h
                exact absurd h hne
            · exact ⟨x, hx, h⟩
        cases acc with
        | none =>
          simp only [expandLoop, hm, if_neg hg]
          exact hstep _
        | some cps =>
          simp only [expandLoop, hm, if_neg hg]
          exact hstep _

theorem expandLoop_ok (m : Str → Option (List ClashProxy)) (gs : List (List ClashProxy))
    (names : List Str) (cps : List (List ClashProxy)) (hm : names.map m = gs.map some)
    (hne : ∀ g ∈ gs, g ≠ []) :
    expandLoop m (some cps) names
      = .ok (gs.foldl (fun cps g => cps.flatMap (fun p => addGroupToChain p g)) cps) := by
  induction names generalizing gs cps with
  | nil =>
    cases gs with
    | nil => rfl
    | cons g gs => simp at hm
  | cons n ns ih =>
    cases gs with
    | nil => simp at hm
    | cons g gs =>
      simp only [List.map_cons, List.cons.injEq] at hm
      have hg : ¬ g.length = 0 := fun e =>
        hne g (List.mem_cons_self _ _) (List.length_eq_zero.1 e)
      simp only [expandLoop, hm.1, if_neg hg, List.foldl_cons]
      exact ih gs _ hm.2 (fun x hx => hne x (List.mem_cons_of_mem _ hx))

/-- C28 (as amended). `expandChain` returns an error exactly when some named
group is missing from the map or is empty. Otherwise, for a non-empty list of
names, it returns one chain for every choice of one proxy per named group, in
lexicographic order of the choices, each chain holding the chosen proxies in
order without those that have the name of the hop kept before them; these are
as many chains as the product of the sizes of the groups, and in none of them
two consecutive proxies have the same name. For the empty list of names it
returns no chain and no error. -/
theorem expandChain_spec (m : Str → Option (List ClashProxy)) (names : List Str) :
    ((∃ err, expandChain m names = .error err) ↔
      ∃ n ∈ names, m n = none ∨ m n = some []) ∧
    (∀ gs : List (List ClashProxy), names.map m = gs.map some → (∀ g ∈ gs, g ≠ []) →
      names ≠ [] →
      expandChain m names = .ok ((choices gs).map hops) ∧
      ((choices gs).map hops).length = (gs.map List.length).prod ∧
      ∀ c ∈ (choices gs).map hops, c.Chain' (fun a b => a.Name ≠ b.Name)) ∧
    (names = [] → expandChain m names = .ok []) := by
  refine ⟨expandLoop_error_iff m names none, ?_, ?_⟩
  · intro gs hm hne hnames
    refine ⟨?_, by rw [List.length_map, choices_length], ?_⟩
    · cases names with
      | nil => exact absurd rfl hnames
      | cons n ns =>
        cases gs with
        | nil => simp at hm
        | cons g gs =>
          simp only [List.map_cons, List.cons.injEq] at hm
          have hg : ¬ g.length = 0 := fun e =>
            hne g (List.mem_cons_self _ _) (List.length_eq_zero.1 e)
          have h1 := fold_groups (g :: gs) [[]]
          simp only [List.map_cons, List.map_nil, List.flatMap_cons, List.flatMap_nil,
            List.append_nil, List.nil_append, List.map_id', List.foldl_cons] at h1
          have h0 : hops [] = [] := rfl
          rw [h0] at h1
          simp only [expandChain, expandLoop, hm.1, if_neg hg]
          rw [expandLoop_ok m gs ns _ hm.2 (fun x hx => hne x (List.mem_cons_of_mem _ hx)), h1]
    · intro c hc
      rw [List.mem_map] at hc
      obtain ⟨c0, _, rfl⟩ := hc
      exact hops_chain c0
  · rintro rfl
    rfl

theorem expandChain_spec_witness :
    expandChain groupsAB [str "a", str "b"]
      = .ok [[{ Name := str "a1" }, { Name := str "a2" }],
             [{ Name := str "a1" }, { Name := str "b1" }],
             [{ Name := str "a2" }],
             [{ Name := str "a2" }, { Name := str "b1" }]] ∧
    (∃ err, expandChain groupsAB [str "a", str "none"] = .error err) :=
  ⟨((expandChain_spec groupsAB [str "a", str "b"]).2.1
      [[{ Name := str "a1" }, { Name := str "a2" }], [{ Name := str "a2" }, { Name := str "b1" }]]
      (by decide) (by decide) (by decide)).1,
    (expandChain_spec groupsAB [str "a", str "none"]).1.2
      ⟨str "none", by decide, Or.inr (by decide)⟩⟩

/-- C28 (as stated) fails: for the empty list of group names `expandChain`
returns no error and no chain at all, while the product of the sizes of the
named groups, the empty product, is 1. -/
theorem expandChain_counterexample :
    expandChain groupsAB [] = .ok [] ∧
    (¬ ∃ n ∈ ([] : List Str), groupsAB n = none ∨ groupsAB n = some []) ∧
    ([] : List (List ClashProxy)).length ≠ ((([] : List Str).map
      (fun n => ((groupsAB n).getD []).length)).prod) := by
  decide

end Quipu
